import Mathlib

/-!
Verification development for the truliv-livekit-agent repository.

The engineering core modelled here is `agent/agent_tools.py`:
the per-user session context cache (`get_cached_context`, `set_cached_context`,
`update_cached_context`, `flush_cached_context`, `clear_cached_context`),
the property-discovery pipeline (`find_nearest_property`,
`properties_according_to_budget`, `haversine_distance`) and the availability
aggregation (`get_room_availability`, `get_all_room_availability`).

Python dicts are modelled as association lists keyed by `String` (insertion
updates the existing binding in place, otherwise appends, exactly like a
Python dict); the MongoDB collection used by `flush_cached_context` is
modelled as an association list of documents together with an explicit
success/failure flag for the single `update_one` call.
-/

namespace TrulivAgent

/-- Lookup in an association list: first binding for the key, like `d[k]`. -/
def alookup {α : Type} : List (String × α) → String → Option α
  | [], _ => none
  | (k', v) :: t, k => if k' = k then some v else alookup t k

/-- Python-dict style insertion `d[k] = v`: overwrite the first binding in
place, otherwise append at the end. -/
def dinsert {α : Type} : List (String × α) → String → α → List (String × α)
  | [], k, v => [(k, v)]
  | (k', v') :: t, k, v =>
    if k' = k then (k, v) :: t else (k', v') :: dinsert t k v

/-- Python-dict style deletion `del d[k]` (a dict never holds a key twice,
so removing every binding for the key is the same operation). -/
def aerase {α : Type} (l : List (String × α)) (k : String) : List (String × α) :=
  l.filter (fun p => ¬ p.1 = k)

/-- The character list of the literal `"context_data."` that
`update_cached_context` strips from dotted field paths. -/
def contextDataPat : List Char :=
  ['c', 'o', 'n', 't', 'e', 'x', 't', '_', 'd', 'a', 't', 'a', '.']

/-- Python's `key.replace("context_data.", "")`: drop every occurrence of the
pattern, scanning left to right. -/
def removeContextDataPat : List Char → List Char
  | [] => []
  | c :: t =>
    if contextDataPat.isPrefixOf (c :: t) then
      removeContextDataPat ((c :: t).drop contextDataPat.length)
    else
      c :: removeContextDataPat t
  termination_by s => s.length
  decreasing_by
    · simp [contextDataPat]
      omega
    · simp

/-- Model of `clean_key = key.replace("context_data.", "")` in `update_cached_context`. -/
def cleanKey (k : String) : String :=
  String.mk (removeContextDataPat k.toList)

/-- One entry of `_user_context_cache`:
`{"context_data": {...}, "dirty": ..., "pending_updates": {...}}`.
The value type of the context fields is a parameter `V`. -/
structure CacheEntry (V : Type) where
  context_data : List (String × V)
  dirty : Bool
  pending_updates : List (String × V)
deriving Repr, DecidableEq

/-- The in-memory `_user_context_cache` dict, keyed by user id. -/
abbrev Cache (V : Type) : Type := List (String × CacheEntry V)

/-- The durable Mongo context collection: one field document per user id. -/
abbrev Db (V : Type) : Type := List (String × List (String × V))

/-- Model of `get_cached_context`: the entry's `context_data` if present, else `None`. -/
def get_cached_context {V : Type} (cache : Cache V) (user_id : String) :
    Option (List (String × V)) :=
  (alookup cache user_id).map CacheEntry.context_data

/-- Model of `set_cached_context`: install a fresh clean entry, replacing any prior one. -/
def set_cached_context {V : Type} (cache : Cache V) (user_id : String)
    (context_data : List (String × V)) : Cache V :=
  dinsert cache user_id ⟨context_data, false, []⟩

/-- The body of the `for key, value in updates.items()` loop of
`update_cached_context`: write the cleaned key into `context_data` and the
raw key into `pending_updates`. -/
def applyUpdate {V : Type} (e : CacheEntry V) (kv : String × V) : CacheEntry V :=
  { e with
    context_data := dinsert e.context_data (cleanKey kv.1) kv.2
    pending_updates := dinsert e.pending_updates kv.1 kv.2 }

/-- Model of `update_cached_context`: create an empty entry if absent, fold the updates
in, then set `dirty = True` (unconditionally, even for an empty mapping). -/
def update_cached_context {V : Type} (cache : Cache V) (user_id : String)
    (updates : List (String × V)) : Cache V :=
  let e0 := (alookup cache user_id).getD ⟨[], false, []⟩
  let e1 := updates.foldl applyUpdate e0
  dinsert cache user_id { e1 with dirty := true }

/-- Model of `clear_cached_context`: unconditionally discard the entry. -/
def clear_cached_context {V : Type} (cache : Cache V) (user_id : String) :
    Cache V :=
  aerase cache user_id

/-- The `update_one({"_id": user_id}, {"$set": fields}, upsert=True)` merge:
each pending field path is written into the user's document, every other
durable field is preserved. -/
def upsert {V : Type} (db : Db V) (user_id : String)
    (fields : List (String × V)) : Db V :=
  let doc := (alookup db user_id).getD []
  dinsert db user_id (fields.foldl (fun d kv => dinsert d kv.1 kv.2) doc)

/-- Result of one `flush_cached_context` call: the returned boolean, the cache
and durable store afterwards, and the single durable write performed (if any). -/
structure FlushOutcome (V : Type) where
  success : Bool
  cache : Cache V
  db : Db V
  wrote : Option (String × List (String × V))
deriving Repr, DecidableEq

/-- Model of `flush_cached_context`: failure if no entry; if not dirty or no pending
updates, clear the entry and succeed with no write; otherwise do the single
upsert — on I/O success clear the entry, on I/O failure (`dbOk = false`,
modelling the `except` branch) leave cache and store untouched and report
failure. -/
def flush_cached_context {V : Type} (cache : Cache V) (db : Db V)
    (dbOk : Bool) (user_id : String) : FlushOutcome V :=
  match alookup cache user_id with
  | none => ⟨false, cache, db, none⟩
  | some e =>
    if e.dirty = false ∨ e.pending_updates.isEmpty then
      ⟨true, clear_cached_context cache user_id, db, none⟩
    else if dbOk then
      ⟨true, clear_cached_context cache user_id,
        upsert db user_id e.pending_updates, some (user_id, e.pending_updates)⟩
    else
      ⟨false, cache, db, none⟩

/-- One operation on the session context cache (the `dbOk` flag of a flush is
the outcome of its `update_one` call). -/
inductive CacheOp (V : Type) where
  | set (user_id : String) (context_data : List (String × V))
  | update (user_id : String) (updates : List (String × V))
  | flush (user_id : String) (dbOk : Bool)
  | clear (user_id : String)
  | get (user_id : String)
deriving Repr, DecidableEq

/-- Execute one cache operation on the (cache, durable store) state. -/
def execOp {V : Type} (s : Cache V × Db V) (op : CacheOp V) : Cache V × Db V :=
  match op with
  | .set uid cd => (set_cached_context s.1 uid cd, s.2)
  | .update uid us => (update_cached_context s.1 uid us, s.2)
  | .flush uid dbOk =>
    let r := flush_cached_context s.1 s.2 dbOk uid
    (r.cache, r.db)
  | .clear uid => (clear_cached_context s.1 uid, s.2)
  | .get _ => s

/-- Execute a sequence of cache operations from a starting state. -/
def execOps {V : Type} (s : Cache V × Db V) (ops : List (CacheOp V)) :
    Cache V × Db V :=
  ops.foldl execOp s

/-- The §4.1 invariant: every live entry is dirty iff it has pending updates. -/
def dirtyInv {V : Type} (cache : Cache V) : Prop :=
  ∀ uid e, alookup cache uid = some e →
    (e.dirty = true ↔ e.pending_updates ≠ [])

/-- Repeated `update_cached_context` calls for one identifier. -/
def runUpdates {V : Type} (cache : Cache V) (user_id : String)
    (updatesList : List (List (String × V))) : Cache V :=
  updatesList.foldl (fun c u => update_cached_context c user_id u) cache

/-- The latest value written for a field path over a sequence of update
mappings (the value of the last mapping that mentions the path). -/
def latestValue {V : Type} (updatesList : List (List (String × V)))
    (path : String) : Option V :=
  updatesList.foldl
    (fun acc u =>
      match alookup u path with
      | some v => some v
      | none => acc)
    none

/-- Boolean guard used to state the amended C3 invariant: the operation is not
an `update` with an empty field-updates mapping. -/
def updatesNonempty {V : Type} : CacheOp V → Bool
  | .update _ us => !us.isEmpty
  | _ => true

/-- The C1 scenario: `set`, then a sequence of `update` calls, then a first
`flush` whose durable `update_one` succeeds. -/
def setUpdateFlush {V : Type} (cache : Cache V) (db : Db V) (uid : String)
    (cd : List (String × V)) (ul : List (List (String × V))) : FlushOutcome V :=
  flush_cached_context (runUpdates (set_cached_context cache uid cd) uid ul)
    db true uid

/-- Option-valued map over a list: the model of a Python loop that raises on
the first failing element (`none`) and otherwise collects all results. -/
def omap {α β : Type} (f : α → Option β) : List α → Option (List β)
  | [] => some []
  | a :: t =>
    match f a with
    | none => none
    | some b =>
      match omap f t with
      | none => none
      | some bs => some (b :: bs)

/-- A `Price` cell of the cached sheet dataframe: the raw spreadsheet string
(possibly with thousands separators) before `properties_according_to_budget`
rewrites the column in place, or the numeric value afterwards. -/
inductive PriceCell where
  | raw (s : String)
  | num (q : ℚ)
deriving Repr, DecidableEq

/-- Value of a run of decimal digit characters. -/
def digitsToNat (l : List Char) : ℕ :=
  l.foldl (fun acc c => 10 * acc + (c.toNat - 48)) 0

/-- Python `s.replace(",", "")`. -/
def stripCommas (s : String) : String :=
  String.mk (s.toList.filter (fun c => ¬ c = ','))

/-- Python `float()` on the decimal literals that occur in sheet price cells
(`digits`, `digits.digits`, `digits.`, `.digits`); other strings are rejected,
modelling the `ValueError` that `astype(float)` raises on them. -/
def parseDecimal (s : String) : Option ℚ :=
  let l := s.toList
  let ip := l.takeWhile Char.isDigit
  let rest := l.dropWhile Char.isDigit
  match rest with
  | [] => if ip.isEmpty then none else some (digitsToNat ip : ℚ)
  | c :: frac =>
    if c = '.' ∧ frac.all Char.isDigit ∧ (¬ ip.isEmpty ∨ ¬ frac.isEmpty) then
      some ((digitsToNat ip : ℚ) + (digitsToNat frac : ℚ) / (10 : ℚ) ^ frac.length)
    else none

/-- The value of `astype(str).str.replace(',', '').astype(float)` on one price
cell: raw sheet strings are comma-stripped and parsed; an already numeric cell
round-trips through its decimal representation unchanged. `none` models the
exception path. -/
def priceFloat : PriceCell → Option ℚ
  | .raw s => parseDecimal (stripCommas s)
  | .num q => some q

/-- One row of the spreadsheet-derived pricing catalog, with the coordinate
cells already held as numbers and the mutable `distance_km` column (absent
until `find_nearest_property` assigns it). The image-link columns, which no
claim touches, are elided. -/
structure SheetRow where
  propertyName : String
  location : String
  cluster : String
  price : PriceCell
  lat : ℚ
  lon : ℚ
  distance_km : Option ℚ
deriving Repr, DecidableEq

/-- The `context_data` fields read by the two discovery tools. -/
structure UserContext where
  botProfession : Option String
  botMoveInPreference : Option String
  botRoomSharingPreference : Option String
  cluster : Option String
deriving Repr, DecidableEq

/-- Python truthiness of `context_data.get(field)` for string-valued fields:
a missing key and an empty string are both falsy. -/
def truthy : Option String → Bool
  | none => false
  | some s => !s.isEmpty

/-- The three prerequisites checked, in their fixed order. -/
inductive PrereqField where
  | profession
  | timeline
  | roomType
deriving Repr, DecidableEq

/-- The first missing prerequisite in the fixed order
profession → timeline → room type, if any. -/
def firstMissing (ctx : UserContext) : Option PrereqField :=
  if ¬ truthy ctx.botProfession then some .profession
  else if ¬ truthy ctx.botMoveInPreference then some .timeline
  else if ¬ truthy ctx.botRoomSharingPreference then some .roomType
  else none

/-- Python `int()` truncation toward zero on a rational. -/
def pyInt (q : ℚ) : ℤ :=
  if 0 ≤ q then ⌊q⌋ else ⌈q⌉

/-- Minimum of a nonempty collection given as head plus tail. -/
def listMin (x : ℚ) (l : List ℚ) : ℚ := l.foldl min x

/-- Maximum of a nonempty collection given as head plus tail. -/
def listMax (x : ℚ) (l : List ℚ) : ℚ := l.foldl max x

/-- Pandas `Series.unique()`: values in order of first occurrence. -/
def dedupFirst : List String → List String
  | [] => []
  | x :: t => x :: dedupFirst (t.filter (fun y => ¬ y = x))
  termination_by l => l.length
  decreasing_by
    simp only [List.length_cons]
    exact Nat.lt_succ_of_le (List.length_filter_le _ _)

/-- One summary entry built by the `extract_unique_properties` helper of
`find_nearest_property` (the drive-folder/image fields are elided; the
min/max prices are the `int()`-truncated values the code formats). -/
structure UniqueProp where
  property_name : String
  location : String
  distance_km : ℚ
  cluster : String
  min_price : ℤ
  max_price : ℤ
deriving Repr, DecidableEq

/-- The `distance_km` value of a row after the column has been assigned
(`first_row['distance_km']`; the 0 default is never reached because the
pipeline only reads the column after assigning it). -/
def rowDist (r : SheetRow) : ℚ := r.distance_km.getD 0

/-- The body of `extract_unique_properties` for one property name: the first
matching row supplies location/distance/cluster, and min/max price are taken
across all matching rows, parsed as floats (`none` = `ValueError`). -/
def extractOne (df : List SheetRow) (name : String) : Option UniqueProp :=
  match df.filter (fun r => r.propertyName = name) with
  | [] => none
  | first :: rest =>
    match priceFloat first.price with
    | none => none
    | some p0 =>
      match omap (fun r => priceFloat r.price) rest with
      | none => none
      | some ps =>
        some ⟨name, first.location, rowDist first, first.cluster,
          pyInt (listMin p0 ps), pyInt (listMax p0 ps)⟩

/-- The `extract_unique_properties` helper: one entry per unique property
name in first-occurrence order. -/
def extract_unique_properties (df : List SheetRow) : Option (List UniqueProp) :=
  omap (extractOne df) (dedupFirst (df.map (fun r => r.propertyName)))

/-- Stable insertion of `x` before the first element it compares `le` to. -/
def insertLe {α : Type} (le : α → α → Bool) (x : α) : List α → List α
  | [] => [x]
  | y :: t => if le x y then x :: y :: t else y :: insertLe le x t

/-- Stable sort (model of Python's stable `list.sort(key=...)`). -/
def sortLe {α : Type} (le : α → α → Bool) (l : List α) : List α :=
  l.foldr (insertLe le) []

/-- Comparison used by `cluster_unique.sort(key=lambda x: x['distance_km'])`. -/
def distLe (a b : UniqueProp) : Bool := decide (a.distance_km ≤ b.distance_km)

/-- The in-place dataframe mutation
`properties_df['distance_km'] = properties_df.apply(lambda row: haversine_distance(...), axis=1)`:
every row of the shared cached frame gets the distance column (re)written.
`hav` abstracts the numeric distance function (`haversine_distance`, analysed
over `ℝ` below); the pipeline only compares its outputs. -/
def assignDistanceColumn (hav : ℚ → ℚ → ℚ → ℚ → ℚ) (ulat ulng : ℚ)
    (rows : List SheetRow) : List SheetRow :=
  rows.map (fun r => { r with distance_km := some (hav ulat ulng r.lat r.lon) })

/-- Pandas `idxmin` selection: the first row attaining the minimal value. -/
def firstMinBy (f : SheetRow → ℚ) : List SheetRow → Option SheetRow
  | [] => none
  | r :: t =>
    match firstMinBy f t with
    | none => some r
    | some m => if f r ≤ f m then some r else some m

/-- The cluster label recorded for a property name: the cluster of the first
row bearing that name, compared against `c` (used to state that, when every
row of a property name agrees on its cluster, the name-level cluster test is
well defined). -/
def clusterOfName (rows : List SheetRow) (c : String) (n : String) : Bool :=
  match rows.find? (fun r => r.propertyName = n) with
  | some r0 => decide (r0.cluster = c)
  | none => false

/-- Structured outcome of `find_nearest_property` (the natural-language
response strings are projections of this; `priceParseError` is the generic
`except` path raised from a malformed price cell). -/
inductive FNResult where
  | missingPrereq (f : PrereqField)
  | dataUnavailable
  | locationNotFound
  | priceParseError
  | found (props : List UniqueProp) (cluster : String)
deriving Repr, DecidableEq

/-- Model of the core of `find_nearest_property` after the user context has
been resolved: prerequisite checks in fixed order, then catalog availability
(`rows?` is the state of `sheet_properties_cache` after the load attempt),
then geocoding (`geo` is the geocoder's oracle answer), then the in-place
distance assignment, nearest-cluster selection, per-cluster unique extraction
and the cluster-first fill-in ordering. Returns the structured result and the
cached dataframe state after the call. -/
def find_nearest_property (hav : ℚ → ℚ → ℚ → ℚ → ℚ) (ctx : UserContext)
    (geo : Option (ℚ × ℚ)) (rows? : Option (List SheetRow)) :
    FNResult × Option (List SheetRow) :=
  match firstMissing ctx with
  | some f => (.missingPrereq f, rows?)
  | none =>
    match rows? with
    | none => (.dataUnavailable, none)
    | some rows =>
      if rows.isEmpty then (.dataUnavailable, some rows)
      else
        match geo with
        | none => (.locationNotFound, some rows)
        | some p =>
          let rows' := assignDistanceColumn hav p.1 p.2 rows
          match firstMinBy rowDist rows' with
          | none => (.dataUnavailable, some rows')
          | some nearest =>
            let cluster := nearest.cluster
            let clusterRows := rows'.filter (fun r => r.cluster = cluster)
            let otherRows := rows'.filter (fun r => ¬ r.cluster = cluster)
            match extract_unique_properties clusterRows with
            | none => (.priceParseError, some rows')
            | some cu =>
              let clusterUnique := sortLe distLe cu
              if clusterUnique.length < 7 then
                match extract_unique_properties otherRows with
                | none => (.priceParseError, some rows')
                | some ou =>
                  let otherUnique := sortLe distLe ou
                  (.found
                    (clusterUnique ++ otherUnique.take (7 - clusterUnique.length))
                    cluster, some rows')
              else
                (.found (clusterUnique.take 7) cluster, some rows')

/-- Python budget extraction:
`re.findall(r"[0-9]+", query.replace(",", ""))[0]` — the first maximal digit
run after stripping thousands separators. -/
def firstDigitRun : List Char → Option (List Char)
  | [] => none
  | c :: t =>
    if c.isDigit then some ((c :: t).takeWhile Char.isDigit)
    else firstDigitRun t

/-- The parsed budget of `properties_according_to_budget`, if any digits occur. -/
def extractBudget (s : String) : Option ℕ :=
  (firstDigitRun (stripCommas s).toList).map digitsToNat

/-- One budget-search summary entry. -/
structure BudgetProp where
  property_name : String
  min_price : ℤ
  max_price : ℤ
  location : String
deriving Repr, DecidableEq

/-- Numeric value of a price cell after the in-place column rewrite (every
cell is `num` by then; the `raw` default is unreachable on that path). -/
def priceNum : PriceCell → ℚ
  | .raw _ => 0
  | .num q => q

/-- The in-place column rewrite
`properties_df['Price'] = properties_df['Price'].astype(str).str.replace(',', '').astype(float)`:
`none` models the `ValueError` raised before any assignment happens. -/
def cleanPriceColumn (rows : List SheetRow) : Option (List SheetRow) :=
  omap (fun r =>
    (priceFloat r.price).map (fun q => { r with price := PriceCell.num q })) rows

/-- The budget tool's per-name unique extraction (prices already numeric). -/
def extractOneBudget (df : List SheetRow) (name : String) : Option BudgetProp :=
  match df.filter (fun r => r.propertyName = name) with
  | [] => none
  | first :: rest =>
    some ⟨name,
      pyInt (listMin (priceNum first.price) (rest.map (fun r => priceNum r.price))),
      pyInt (listMax (priceNum first.price) (rest.map (fun r => priceNum r.price))),
      first.location⟩

/-- Unique budget entries in first-occurrence order. -/
def extract_unique_budget (df : List SheetRow) : Option (List BudgetProp) :=
  omap (extractOneBudget df) (dedupFirst (df.map (fun r => r.propertyName)))

/-- Comparison used by `unique_props.sort(key=lambda x: x['min_price'])`. -/
def priceLe (a b : BudgetProp) : Bool := decide (a.min_price ≤ b.min_price)

/-- The soft cluster narrowing of STEP 6: if the user context holds a truthy
selected cluster and the budget-filtered rows intersect it, narrow to the
intersection, otherwise keep the full filtered set. -/
def narrowCluster (ctx : UserContext) (filtered : List SheetRow) :
    List SheetRow :=
  match ctx.cluster with
  | none => filtered
  | some c =>
    if c.isEmpty then filtered
    else
      let clusterDf := filtered.filter (fun r => r.cluster = c)
      if clusterDf.isEmpty then filtered else clusterDf

/-- Structured outcome of `properties_according_to_budget`. -/
inductive PBResult where
  | missingPrereq (f : PrereqField)
  | malformedBudget
  | dataUnavailable
  | priceParseError
  | noneUnderBudget (budget : ℕ)
  | found (props : List BudgetProp) (budget : ℕ)
deriving Repr, DecidableEq

/-- Model of the core of `properties_according_to_budget` after context
resolution: prerequisite checks, budget extraction, catalog availability,
the in-place `Price` column rewrite, the `Price <= budget` filter, the
soft cluster narrowing, unique extraction and the ascending min-price
top-5 selection. Returns the structured result and the cached dataframe
state after the call. -/
def properties_according_to_budget (ctx : UserContext) (budget_query : String)
    (rows? : Option (List SheetRow)) : PBResult × Option (List SheetRow) :=
  match firstMissing ctx with
  | some f => (.missingPrereq f, rows?)
  | none =>
    match extractBudget budget_query with
    | none => (.malformedBudget, rows?)
    | some budget =>
      match rows? with
      | none => (.dataUnavailable, none)
      | some rows =>
        if rows.isEmpty then (.dataUnavailable, some rows)
        else
          match cleanPriceColumn rows with
          | none => (.priceParseError, some rows)
          | some rows' =>
            let filtered := rows'.filter (fun r => priceNum r.price ≤ (budget : ℚ))
            if filtered.isEmpty then (.noneUnderBudget budget, some rows')
            else
              match extract_unique_budget (narrowCluster ctx filtered) with
              | none => (.priceParseError, some rows')
              | some up =>
                (.found ((sortLe priceLe up).take 5) budget, some rows')

/-- One room-type record of a Warden availability response. -/
structure RoomAvail where
  roomTypeName : String
  availableBeds : ℤ
  availableFemaleBeds : ℤ
  availableMaleBeds : ℤ
deriving Repr, DecidableEq

/-- One per-property record of the availability `data` envelope. -/
structure PropAvail where
  propertyId : ℕ
  availability : List RoomAvail
deriving Repr, DecidableEq

/-- One reported room-type entry: the numeric fields behind the formatted
voice string `"{room_type} with {n} beds available (...)"`. -/
structure RoomEntry where
  roomTypeName : String
  availableBeds : ℤ
  availableFemaleBeds : ℤ
  availableMaleBeds : ℤ
deriving Repr, DecidableEq

/-- Model of the `available_rooms` accumulation in `get_room_availability`:
for each property record and each room type, the entry is reported only when
`availableBeds > 0` (the final strings are projections of these entries,
truncated to three for voice). -/
def get_room_availability (availability_data : List PropAvail) :
    List RoomEntry :=
  availability_data.foldr
    (fun pd acc =>
      (pd.availability.filter (fun a => 0 < a.availableBeds)).map
        (fun a => ⟨a.roomTypeName, a.availableBeds, a.availableFemaleBeds,
          a.availableMaleBeds⟩) ++ acc)
    []

/-- Lookup in a `propertyId`-keyed association list (`property_map`). -/
def nlookup {α : Type} : List (ℕ × α) → ℕ → Option α
  | [], _ => none
  | (k', v) :: t, k => if k' = k then some v else nlookup t k

/-- The property info kept in `property_map`. -/
structure PropInfo where
  name : String
  address : String
  city : String
deriving Repr, DecidableEq

/-- One entry of `available_properties` in `get_all_room_availability`. -/
structure PropSummary where
  propertyId : ℕ
  name : String
  address : String
  city : String
  availableBeds : ℤ
  rooms : List RoomEntry
deriving Repr, DecidableEq

/-- One iteration of the `available_properties` loop of
`get_all_room_availability`: ids absent from the property map are skipped,
room types with non-positive availability are dropped, and the property is
kept only when its summed bed count is positive. -/
def availabilityStep (property_map : List (ℕ × PropInfo)) (pa : PropAvail)
    (acc : List PropSummary) : List PropSummary :=
  match nlookup property_map pa.propertyId with
  | none => acc
  | some info =>
    let rooms := pa.availability.filter (fun a => 0 < a.availableBeds)
    let total := (rooms.map (fun a => a.availableBeds)).sum
    if 0 < total then
      (⟨pa.propertyId, info.name, info.address, info.city, total,
        rooms.map (fun a => ⟨a.roomTypeName, a.availableBeds,
          a.availableFemaleBeds, a.availableMaleBeds⟩)⟩ : PropSummary) :: acc
    else acc

/-- Model of `get_all_room_availability`'s merge: the
`available_properties` accumulation over all availability records, sorted by
descending total availability (stably, like `sort(reverse=True)`). -/
def get_all_room_availability (property_map : List (ℕ × PropInfo))
    (availability_data : List PropAvail) : List PropSummary :=
  sortLe (fun a b => decide (b.availableBeds ≤ a.availableBeds))
    (availability_data.foldr (availabilityStep property_map) [])

/-- Python `math.atan2` on the real-number idealisation (signed zeros do not
exist on `ℝ`). -/
noncomputable def atan2 (y x : ℝ) : ℝ :=
  if 0 < x then Real.arctan (y / x)
  else if x < 0 then
    if 0 ≤ y then Real.arctan (y / x) + Real.pi
    else Real.arctan (y / x) - Real.pi
  else
    if 0 < y then Real.pi / 2
    else if y < 0 then -(Real.pi / 2)
    else 0

/-- Model of `haversine_distance` over the reals:
`R = 6371` km, degree inputs converted to radians via `math.radians`,
`a = sin²(Δφ/2) + cos φ1 · cos φ2 · sin²(Δλ/2)`,
`c = 2 · atan2(√a, √(1-a))`, result `R · c`. -/
noncomputable def haversine_distance (lat1 lon1 lat2 lon2 : ℝ) : ℝ :=
  let R : ℝ := 6371
  let phi1 := lat1 * Real.pi / 180
  let phi2 := lat2 * Real.pi / 180
  let dphi := (lat2 - lat1) * Real.pi / 180
  let dlam := (lon2 - lon1) * Real.pi / 180
  let a := Real.sin (dphi / 2) ^ 2 +
    Real.cos phi1 * Real.cos phi2 * Real.sin (dlam / 2) ^ 2
  let c := 2 * atan2 (Real.sqrt a) (Real.sqrt (1 - a))
  R * c

/-- A vector in `ℝ³`, used to analyse the haversine formula via the unit
sphere. -/
structure Vec3 where
  x : ℝ
  y : ℝ
  z : ℝ

/-- Euclidean dot product on `ℝ³`. -/
def dot3 (u v : Vec3) : ℝ := u.x * v.x + u.y * v.y + u.z * v.z

/-- The unit vector of latitude `phi`, longitude `lam` (radians). -/
noncomputable def sph (phi lam : ℝ) : Vec3 :=
  ⟨Real.cos phi * Real.cos lam, Real.cos phi * Real.sin lam, Real.sin phi⟩

/-- Component of `u` orthogonal to `v` when `c = dot3 u v` and `v` is a unit
vector; used for the Cauchy–Schwarz step of the spherical triangle
inequality. -/
def perp (u v : Vec3) (c : ℝ) : Vec3 :=
  ⟨u.x - c * v.x, u.y - c * v.y, u.z - c * v.z⟩

theorem alookup_dinsert_self {α : Type} (l : List (String × α)) (k : String)
    (v : α) : alookup (dinsert l k v) k = some v := by
  induction l with
  | nil => simp [dinsert, alookup]
  | cons p t ih =>
    obtain ⟨k', v'⟩ := p
    by_cases h : k' = k
    · simp [dinsert, h, alookup]
    · simp [dinsert, h, alookup, ih]

theorem alookup_dinsert_ne {α : Type} (l : List (String × α)) (k k' : String)
    (v : α) (h : k' ≠ k) : alookup (dinsert l k v) k' = alookup l k' := by
  induction l with
  | nil => simp [dinsert, alookup, Ne.symm h]
  | cons p t ih =>
    obtain ⟨a, b⟩ := p
    by_cases ha : a = k
    · subst ha
      simp [dinsert, alookup, Ne.symm h]
    · by_cases hb : a = k'
      · simp [dinsert, ha, alookup, hb, h]
      · simp [dinsert, ha, alookup, hb, ih]

theorem dinsert_ne_nil {α : Type} (l : List (String × α)) (k : String)
    (v : α) : dinsert l k v ≠ [] := by
  cases l with
  | nil => simp [dinsert]
  | cons p t =>
    obtain ⟨a, b⟩ := p
    by_cases h : a = k <;> simp [dinsert, h]

theorem alookup_aerase_self {α : Type} (l : List (String × α)) (k : String) :
    alookup (aerase l k) k = none := by
  induction l with
  | nil => rfl
  | cons p t ih =>
    obtain ⟨a, b⟩ := p
    by_cases h : a = k
    · simpa [aerase, List.filter_cons, h] using ih
    · simpa [aerase, List.filter_cons, h, alookup] using ih

theorem alookup_aerase_ne {α : Type} (l : List (String × α)) (k k' : String)
    (h : k' ≠ k) : alookup (aerase l k) k' = alookup l k' := by
  induction l with
  | nil => rfl
  | cons p t ih =>
    obtain ⟨a, b⟩ := p
    by_cases ha : a = k
    · subst ha
      simpa [aerase, List.filter_cons, alookup, Ne.symm h] using ih
    · by_cases hb : a = k'
      · simp [aerase, List.filter_cons, ha, alookup, hb, h]
      · simpa [aerase, List.filter_cons, ha, alookup, hb] using ih

theorem alookup_eq_none_of_not_mem {α : Type} (l : List (String × α))
    (k : String) (h : k ∉ l.map Prod.fst) : alookup l k = none := by
  induction l with
  | nil => simp [alookup]
  | cons p t ih =>
    obtain ⟨a, b⟩ := p
    simp only [List.map_cons, List.mem_cons] at h
    push_neg at h
    simp [alookup, Ne.symm h.1, ih h.2]

/-- Folding a duplicate-free update mapping into a pending dict: the mapping's
own binding wins for paths it mentions, everything else is preserved. -/
theorem alookup_foldl_dinsert {V : Type} (u : List (String × V))
    (p : List (String × V)) (path : String)
    (h : (u.map Prod.fst).Nodup) :
    alookup (u.foldl (fun acc kv => dinsert acc kv.1 kv.2) p) path =
      match alookup u path with
      | some v => some v
      | none => alookup p path := by
  induction u generalizing p with
  | nil => simp [alookup]
  | cons kv t ih =>
    obtain ⟨k, v⟩ := kv
    simp only [List.map_cons, List.nodup_cons] at h
    by_cases hk : k = path
    · subst hk
      have ht : alookup t k = none := by
        apply alookup_eq_none_of_not_mem
        exact h.1
      simp [alookup, ht, ih _ h.2, alookup_dinsert_self]
    · simp [alookup, hk, ih _ h.2, alookup_dinsert_ne _ _ _ _ (Ne.symm hk)]

theorem pending_foldl_applyUpdate {V : Type} (us : List (String × V))
    (e : CacheEntry V) :
    (us.foldl applyUpdate e).pending_updates =
      us.foldl (fun p kv => dinsert p kv.1 kv.2) e.pending_updates := by
  induction us generalizing e with
  | nil => rfl
  | cons kv t ih => simp [List.foldl_cons, ih, applyUpdate]

theorem dirty_foldl_applyUpdate {V : Type} (us : List (String × V))
    (e : CacheEntry V) :
    (us.foldl applyUpdate e).dirty = e.dirty := by
  induction us generalizing e with
  | nil => rfl
  | cons kv t ih => simp [List.foldl_cons, ih, applyUpdate]

/-- Per-path content of the pending dict accumulated over a sequence of
duplicate-free update mappings. -/
theorem alookup_pendingFold {V : Type}
    (ul : List (List (String × V))) (p0 : List (String × V)) (path : String)
    (h : ∀ u ∈ ul, (u.map Prod.fst).Nodup) :
    alookup (ul.foldl (fun p u => u.foldl (fun acc kv => dinsert acc kv.1 kv.2) p) p0) path =
      ul.foldl
        (fun acc u =>
          match alookup u path with
          | some v => some v
          | none => acc)
        (alookup p0 path) := by
  induction ul generalizing p0 with
  | nil => rfl
  | cons u t ih =>
    simp only [List.foldl_cons]
    rw [ih _ (fun x hx => h x (List.mem_cons_of_mem _ hx)),
      alookup_foldl_dinsert _ _ _ (h u (List.mem_cons_self _ _))]

/-- After a `set` and a sequence of `update` calls on the same identifier, the
entry's pending dict is the left fold of all update mappings and the dirty
flag records whether any update call happened. -/
theorem runUpdates_lookup {V : Type} (ul : List (List (String × V)))
    (cache : Cache V) (uid : String) (e : CacheEntry V)
    (he : alookup cache uid = some e) :
    ∃ e', alookup (runUpdates cache uid ul) uid = some e' ∧
      e'.pending_updates =
        ul.foldl (fun p u => u.foldl (fun acc kv => dinsert acc kv.1 kv.2) p)
          e.pending_updates ∧
      e'.dirty = (e.dirty || !ul.isEmpty) := by
  induction ul generalizing cache e with
  | nil => exact ⟨e, by simpa [runUpdates] using he, rfl, by simp⟩
  | cons u t ih =>
    have hstep : alookup (update_cached_context cache uid u) uid =
        some { u.foldl applyUpdate e with dirty := true } := by
      simp [update_cached_context, he, alookup_dinsert_self]
    obtain ⟨e', h1, h2, h3⟩ := ih (update_cached_context cache uid u) _ hstep
    refine ⟨e', ?_, ?_, ?_⟩
    · simpa [runUpdates, List.foldl_cons] using h1
    · rw [h2]
      simp [pending_foldl_applyUpdate]
    · rw [h3]
      simp

theorem foldl_dinsert_ne_nil {V : Type} (t : List (String × V))
    (p : List (String × V)) (hp : p ≠ []) :
    t.foldl (fun acc kv => dinsert acc kv.1 kv.2) p ≠ [] := by
  induction t generalizing p with
  | nil => exact hp
  | cons kv t ih => exact ih _ (dinsert_ne_nil _ _ _)

theorem pendingFold_ne_nil {V : Type} (us : List (String × V))
    (p : List (String × V)) (h : us ≠ []) :
    us.foldl (fun acc kv => dinsert acc kv.1 kv.2) p ≠ [] := by
  cases us with
  | nil => exact absurd rfl h
  | cons kv t => exact foldl_dinsert_ne_nil t _ (dinsert_ne_nil _ _ _)

theorem dirtyInv_set {V : Type} (c : Cache V) (uid : String)
    (cd : List (String × V)) (h : dirtyInv c) :
    dirtyInv (set_cached_context c uid cd) := by
  intro uid' e' he'
  by_cases hu : uid' = uid
  · subst hu
    rw [set_cached_context, alookup_dinsert_self] at he'
    have : e' = ⟨cd, false, []⟩ := (Option.some.inj he').symm
    subst this
    simp
  · rw [set_cached_context, alookup_dinsert_ne _ _ _ _ hu] at he'
    exact h _ _ he'

theorem dirtyInv_update {V : Type} (c : Cache V) (uid : String)
    (us : List (String × V)) (hus : us ≠ []) (h : dirtyInv c) :
    dirtyInv (update_cached_context c uid us) := by
  intro uid' e' he'
  simp only [update_cached_context] at he'
  by_cases hu : uid' = uid
  · rw [hu, alookup_dinsert_self] at he'
    have he2 := (Option.some.inj he').symm
    subst he2
    constructor
    · intro _
      simp only [pending_foldl_applyUpdate]
      exact pendingFold_ne_nil us _ hus
    · intro _
      rfl
  · rw [alookup_dinsert_ne _ _ _ _ hu] at he'
    exact h _ _ he'

theorem dirtyInv_aerase {V : Type} (c : Cache V) (uid : String)
    (h : dirtyInv c) : dirtyInv (aerase c uid) := by
  intro uid' e' he'
  by_cases hu : uid' = uid
  · subst hu
    rw [alookup_aerase_self] at he'
    cases he'
  · rw [alookup_aerase_ne _ _ _ hu] at he'
    exact h _ _ he'

theorem dirtyInv_flush {V : Type} (c : Cache V) (db : Db V) (dbOk : Bool)
    (uid : String) (h : dirtyInv c) :
    dirtyInv (flush_cached_context c db dbOk uid).cache := by
  unfold flush_cached_context
  cases hc : alookup c uid with
  | none => exact h
  | some e =>
    dsimp only
    split
    · exact dirtyInv_aerase _ uid h
    · split
      · exact dirtyInv_aerase _ uid h
      · exact h

theorem dirtyInv_execOp {V : Type} (s : Cache V × Db V) (op : CacheOp V)
    (hop : updatesNonempty op = true)
    (h : dirtyInv s.1) : dirtyInv (execOp s op).1 := by
  cases op with
  | set uid cd => exact dirtyInv_set _ _ _ h
  | update uid us =>
    refine dirtyInv_update _ _ _ ?_ h
    simp only [updatesNonempty, Bool.not_eq_true'] at hop
    intro h0
    rw [h0] at hop
    simp at hop
  | flush uid dbOk => exact dirtyInv_flush _ _ _ _ h
  | clear uid => exact dirtyInv_aerase _ _ h
  | get uid => exact h

/-- C3 (amended): over every sequence of `set`/`get`/`update`/`flush`/`clear`
operations starting from the empty cache in which every `update` call carries
a non-empty field-updates mapping, each reachable cache entry is dirty iff its
pending-updates mapping is non-empty. (An `update` with an empty mapping
breaks the invariant — see the counterexample — because the code sets
`dirty = True` unconditionally.) -/
theorem dirty_iff_pending_inv {V : Type} (db : Db V) (ops : List (CacheOp V))
    (hops : ∀ op ∈ ops, updatesNonempty op = true) :
    dirtyInv (execOps (([], db) : Cache V × Db V) ops).1 := by
  have main : ∀ (l : List (CacheOp V)) (s : Cache V × Db V), dirtyInv s.1 →
      (∀ op ∈ l, updatesNonempty op = true) →
      dirtyInv (execOps s l).1 := by
    intro l
    induction l with
    | nil =>
      intro s h _
      exact h
    | cons op t ih =>
      intro s h hl
      exact ih _ (dirtyInv_execOp s op (hl op (List.mem_cons_self _ _)) h)
        (fun o ho => hl o (List.mem_cons_of_mem _ ho))
  refine main _ _ ?_ hops
  intro uid e he
  simp [alookup] at he

/-- Witness for C3 (amended): a concrete mixed operation sequence with
non-empty updates keeps the dirty/pending invariant. -/
theorem dirty_iff_pending_inv_witness :
    dirtyInv (execOps (([], []) : Cache Nat × Db Nat)
      [CacheOp.set "u" [("name", 1)],
       CacheOp.update "u" [("context_data.botProfession", 2)],
       CacheOp.flush "u" true,
       CacheOp.update "v" [("a", 3)],
       CacheOp.flush "v" false,
       CacheOp.clear "v",
       CacheOp.get "u"]).1 :=
  dirty_iff_pending_inv [] _ (by decide)

/-- C3 counterexample: `update` with an empty field-updates mapping produces a
reachable entry with `dirty = True` and empty pending updates, violating the
claimed invariant. -/
theorem update_empty_breaks_dirty_iff :
    ¬ dirtyInv (execOps (([], []) : Cache Nat × Db Nat)
      [CacheOp.update "u" []]).1 := by
  intro h
  have h2 := h "u" ⟨[], true, []⟩ (by decide)
  simp at h2

theorem not_clean_branch {V : Type} (e : CacheEntry V) (hd : e.dirty = true)
    (hp : e.pending_updates ≠ []) :
    ¬ (e.dirty = false ∨ e.pending_updates.isEmpty) := by
  intro hc
  rcases hc with h | h
  · rw [hd] at h
    cases h
  · exact hp (by simpa using h)

/-- C1 (amended): after `set` and any run of duplicate-free `update` mappings
on one identifier, a successful `flush` reports success and performs at most
one durable write, keyed by the identifier, whose fields are exactly the
latest value per field path (stale values are not retained); the second
`flush` invoked immediately afterwards performs no durable write, but it
reports failure (not success), because the successful flush removed the
cache entry. -/
theorem flush_writes_latest_values {V : Type} (cache : Cache V) (db : Db V)
    (uid : String) (cd : List (String × V)) (ul : List (List (String × V)))
    (hnodup : ∀ u ∈ ul, (u.map Prod.fst).Nodup) :
    (setUpdateFlush cache db uid cd ul).success = true ∧
    (∀ path,
      alookup (((setUpdateFlush cache db uid cd ul).wrote.map Prod.snd).getD [])
        path = latestValue ul path) ∧
    (∀ w, (setUpdateFlush cache db uid cd ul).wrote = some w → w.1 = uid) ∧
    (∀ dbOk2,
      flush_cached_context (setUpdateFlush cache db uid cd ul).cache
          (setUpdateFlush cache db uid cd ul).db dbOk2 uid =
        ⟨false, (setUpdateFlush cache db uid cd ul).cache,
          (setUpdateFlush cache db uid cd ul).db, none⟩) := by
  have hset : alookup (set_cached_context cache uid cd) uid =
      some ⟨cd, false, []⟩ := by
    rw [set_cached_context, alookup_dinsert_self]
  obtain ⟨e', hl, hp, hd⟩ := runUpdates_lookup ul _ uid _ hset
  have hpath : ∀ path, alookup e'.pending_updates path = latestValue ul path := by
    intro path
    rw [hp]
    simpa [latestValue, alookup] using
      alookup_pendingFold ul [] path hnodup
  by_cases hpe : e'.pending_updates = []
  · have hr : setUpdateFlush cache db uid cd ul =
        ⟨true, clear_cached_context (runUpdates (set_cached_context cache uid cd) uid ul) uid,
          db, none⟩ := by
      simp [setUpdateFlush, flush_cached_context, hl, hpe]
    refine ⟨by rw [hr], ?_, ?_, ?_⟩
    · intro path
      rw [hr]
      have h0 := hpath path
      rw [hpe] at h0
      exact h0
    · intro w hw
      rw [hr] at hw
      cases hw
    · intro dbOk2
      rw [hr]
      simp [flush_cached_context, clear_cached_context, alookup_aerase_self]
  · have hul : ul ≠ [] := by
      intro h0
      subst h0
      exact hpe (by simpa using hp)
    have hdirty : e'.dirty = true := by
      rw [hd]
      cases ul with
      | nil => exact absurd rfl hul
      | cons a t => simp
    have h1 : ¬ (e'.dirty = false ∨ e'.pending_updates.isEmpty) :=
      not_clean_branch e' hdirty hpe
    have hr : setUpdateFlush cache db uid cd ul =
        ⟨true, clear_cached_context (runUpdates (set_cached_context cache uid cd) uid ul) uid,
          upsert db uid e'.pending_updates, some (uid, e'.pending_updates)⟩ := by
      simp [setUpdateFlush, flush_cached_context, hl, h1]
      exact ⟨hdirty, hpe⟩
    refine ⟨by rw [hr], ?_, ?_, ?_⟩
    · intro path
      rw [hr]
      simpa using hpath path
    · intro w hw
      rw [hr] at hw
      cases Option.some.inj hw
      rfl
    · intro dbOk2
      rw [hr]
      simp [flush_cached_context, clear_cached_context, alookup_aerase_self]

/-- Witness for C1 (amended): two updates to the same field path, then flush —
the single durable write holds the latest value only. -/
theorem flush_writes_latest_values_witness :
    (setUpdateFlush ([] : Cache Nat) [] "u" []
      [[("context_data.name", 1)], [("context_data.name", 2)]]).success = true ∧
    (∀ path,
      alookup (((setUpdateFlush ([] : Cache Nat) [] "u" []
        [[("context_data.name", 1)], [("context_data.name", 2)]]).wrote.map
          Prod.snd).getD []) path =
        latestValue [[("context_data.name", 1)], [("context_data.name", 2)]] path) ∧
    (∀ w, (setUpdateFlush ([] : Cache Nat) [] "u" []
      [[("context_data.name", 1)], [("context_data.name", 2)]]).wrote = some w →
        w.1 = "u") ∧
    (∀ dbOk2,
      flush_cached_context (setUpdateFlush ([] : Cache Nat) [] "u" []
          [[("context_data.name", 1)], [("context_data.name", 2)]]).cache
        (setUpdateFlush ([] : Cache Nat) [] "u" []
          [[("context_data.name", 1)], [("context_data.name", 2)]]).db dbOk2 "u" =
        ⟨false,
          (setUpdateFlush ([] : Cache Nat) [] "u" []
            [[("context_data.name", 1)], [("context_data.name", 2)]]).cache,
          (setUpdateFlush ([] : Cache Nat) [] "u" []
            [[("context_data.name", 1)], [("context_data.name", 2)]]).db,
          none⟩) :=
  flush_writes_latest_values [] [] "u" []
    [[("context_data.name", 1)], [("context_data.name", 2)]] (by decide)

/-- C1 counterexample: a second `flush` immediately after a successful one
returns failure (`False`), not success, though it indeed performs no write —
the claim's "returns success" is false on the code. -/
theorem second_flush_reports_failure :
    (flush_cached_context
      (setUpdateFlush ([] : Cache Nat) [] "u" [] [[("context_data.name", 7)]]).cache
      (setUpdateFlush ([] : Cache Nat) [] "u" [] [[("context_data.name", 7)]]).db
      true "u").success = false ∧
    (setUpdateFlush ([] : Cache Nat) [] "u" [] [[("context_data.name", 7)]]).success
      = true := by
  decide

/-- C4: for a dirty entry with pending updates, a flush whose durable upsert
fails reports failure and leaves cache and durable store entirely unchanged
(same context data, dirty flag and pending updates), so a retry attempts the
very same write; a flush whose upsert succeeds clears the entry and performs
the single field-merge write of the pending updates. -/
theorem flush_failure_leaves_entry_intact {V : Type} (cache : Cache V)
    (db : Db V) (uid : String) (e : CacheEntry V)
    (he : alookup cache uid = some e) (hd : e.dirty = true)
    (hp : e.pending_updates ≠ []) :
    flush_cached_context cache db false uid = ⟨false, cache, db, none⟩ ∧
    flush_cached_context cache db true uid =
      ⟨true, clear_cached_context cache uid, upsert db uid e.pending_updates,
        some (uid, e.pending_updates)⟩ := by
  have h1 : ¬ (e.dirty = false ∨ e.pending_updates.isEmpty) :=
    not_clean_branch e hd hp
  constructor
  · simp [flush_cached_context, he, h1]
    exact ⟨hd, hp⟩
  · simp [flush_cached_context, he, h1]
    exact ⟨hd, hp⟩

/-- Witness for C4 at a concrete dirty entry. -/
theorem flush_failure_leaves_entry_intact_witness :
    flush_cached_context [("u", (⟨[("name", 1)], true, [("a", 2)]⟩ : CacheEntry Nat))]
        [] false "u" =
      ⟨false, [("u", ⟨[("name", 1)], true, [("a", 2)]⟩)], [], none⟩ ∧
    flush_cached_context [("u", (⟨[("name", 1)], true, [("a", 2)]⟩ : CacheEntry Nat))]
        [] true "u" =
      ⟨true,
        clear_cached_context [("u", ⟨[("name", 1)], true, [("a", 2)]⟩)] "u",
        upsert [] "u" [("a", 2)], some ("u", [("a", 2)])⟩ :=
  flush_failure_leaves_entry_intact _ _ "u" ⟨[("name", 1)], true, [("a", 2)]⟩
    (by decide) (by decide) (by decide)

/-- C8: for an identifier with no cache entry, `get` returns an explicit
absence signal and `flush` returns failure; neither creates an entry nor
performs a durable write (cache and store are returned unchanged). -/
theorem absent_get_flush {V : Type} (cache : Cache V) (db : Db V)
    (dbOk : Bool) (uid : String) (h : alookup cache uid = none) :
    get_cached_context cache uid = none ∧
    flush_cached_context cache db dbOk uid = ⟨false, cache, db, none⟩ := by
  constructor
  · simp [get_cached_context, h]
  · simp [flush_cached_context, h]

/-- Witness for C8 on the empty cache. -/
theorem absent_get_flush_witness :
    get_cached_context ([] : Cache Nat) "u" = none ∧
    flush_cached_context ([] : Cache Nat) [] true "u" = ⟨false, [], [], none⟩ :=
  absent_get_flush [] [] true "u" (by decide)

theorem omap_isSome {α β : Type} (f : α → Option β) (l : List α)
    (h : ∀ a ∈ l, (f a).isSome) : ∃ l', omap f l = some l' := by
  induction l with
  | nil => exact ⟨[], rfl⟩
  | cons a t ih =>
    obtain ⟨b, hb⟩ := Option.isSome_iff_exists.mp (h a (List.mem_cons_self _ _))
    obtain ⟨l', hl'⟩ := ih (fun x hx => h x (List.mem_cons_of_mem _ hx))
    exact ⟨b :: l', by simp [omap, hb, hl']⟩

theorem omap_length {α β : Type} (f : α → Option β) (l : List α) (l' : List β)
    (h : omap f l = some l') : l'.length = l.length := by
  induction l generalizing l' with
  | nil =>
    simp only [omap] at h
    cases h
    rfl
  | cons a t ih =>
    simp only [omap] at h
    cases hfa : f a with
    | none =>
      rw [hfa] at h
      cases h
    | some b =>
      rw [hfa] at h
      cases ht : omap f t with
      | none =>
        rw [ht] at h
        cases h
      | some bs =>
        rw [ht] at h
        cases h
        simp [ih _ ht]

theorem omap_mem {α β : Type} (f : α → Option β) (l : List α) (l' : List β)
    (h : omap f l = some l') (b : β) (hb : b ∈ l') :
    ∃ a ∈ l, f a = some b := by
  induction l generalizing l' with
  | nil =>
    simp only [omap] at h
    cases h
    cases hb
  | cons a t ih =>
    simp only [omap] at h
    cases hfa : f a with
    | none =>
      rw [hfa] at h
      cases h
    | some b0 =>
      rw [hfa] at h
      cases ht : omap f t with
      | none =>
        rw [ht] at h
        cases h
      | some bs =>
        rw [ht] at h
        cases h
        rcases List.mem_cons.mp hb with rfl | hb'
        · exact ⟨a, List.mem_cons_self _ _, hfa⟩
        · obtain ⟨a', ha', hfa'⟩ := ih _ ht hb'
          exact ⟨a', List.mem_cons_of_mem _ ha', hfa'⟩

theorem mem_insertLe {α : Type} (le : α → α → Bool) (x y : α) (l : List α) :
    y ∈ insertLe le x l ↔ y = x ∨ y ∈ l := by
  induction l with
  | nil => simp [insertLe]
  | cons z t ih =>
    by_cases h : le x z = true
    · simp only [insertLe, if_pos h]
      simp [List.mem_cons]
    · simp only [insertLe, if_neg h]
      simp [List.mem_cons, ih]
      tauto

theorem mem_sortLe {α : Type} (le : α → α → Bool) (l : List α) (y : α) :
    y ∈ sortLe le l ↔ y ∈ l := by
  unfold sortLe
  induction l with
  | nil => simp
  | cons a t ih =>
    simp only [List.foldr_cons, mem_insertLe, ih, List.mem_cons]

theorem length_insertLe {α : Type} (le : α → α → Bool) (x : α) (l : List α) :
    (insertLe le x l).length = l.length + 1 := by
  induction l with
  | nil => rfl
  | cons z t ih =>
    by_cases h : le x z = true
    · simp [insertLe, if_pos h]
    · simp [insertLe, if_neg h, ih]

theorem length_sortLe {α : Type} (le : α → α → Bool) (l : List α) :
    (sortLe le l).length = l.length := by
  unfold sortLe
  induction l with
  | nil => rfl
  | cons a t ih => simp [List.foldr_cons, length_insertLe, ih]

theorem pairwise_insertLe {α : Type} (le : α → α → Bool)
    (htot : ∀ a b, le a b = true ∨ le b a = true)
    (htrans : ∀ a b c, le a b = true → le b c = true → le a c = true)
    (x : α) (l : List α) (hl : l.Pairwise (fun a b => le a b = true)) :
    (insertLe le x l).Pairwise (fun a b => le a b = true) := by
  induction l with
  | nil => simp [insertLe]
  | cons y t ih =>
    rcases List.pairwise_cons.mp hl with ⟨hy, ht⟩
    by_cases h : le x y = true
    · rw [insertLe, if_pos h]
      refine List.pairwise_cons.mpr ⟨?_, hl⟩
      intro z hz
      rcases List.mem_cons.mp hz with rfl | hz'
      · exact h
      · exact htrans x y z h (hy z hz')
    · rw [insertLe, if_neg h]
      refine List.pairwise_cons.mpr ⟨?_, ih ht⟩
      intro z hz
      rcases (mem_insertLe le x z t).mp hz with h0 | hz'
      · rw [h0]
        rcases htot x y with h1 | h1
        · exact absurd h1 h
        · exact h1
      · exact hy z hz'

theorem sortLe_pairwise {α : Type} (le : α → α → Bool)
    (htot : ∀ a b, le a b = true ∨ le b a = true)
    (htrans : ∀ a b c, le a b = true → le b c = true → le a c = true)
    (l : List α) :
    (sortLe le l).Pairwise (fun a b => le a b = true) := by
  unfold sortLe
  induction l with
  | nil => simp
  | cons a t ih =>
    exact pairwise_insertLe le htot htrans a _ ih

theorem length_filter_partition {α : Type} (p : α → Bool) (l : List α) :
    (l.filter p).length + (l.filter (fun a => !p a)).length = l.length := by
  induction l with
  | nil => rfl
  | cons a t ih =>
    by_cases h : p a = true <;> simp [List.filter_cons, h] <;> omega

theorem mem_dedupFirst_aux :
    ∀ (n : ℕ) (l : List String), l.length ≤ n →
      ∀ y, (y ∈ dedupFirst l ↔ y ∈ l) := by
  intro n
  induction n with
  | zero =>
    intro l hl y
    cases l with
    | nil => simp [dedupFirst]
    | cons x t => simp at hl
  | succ n ih =>
    intro l hl y
    cases l with
    | nil => simp [dedupFirst]
    | cons x t =>
      rw [dedupFirst]
      simp only [List.mem_cons]
      constructor
      · rintro (rfl | hy)
        · exact Or.inl rfl
        · have hmem := (ih (t.filter (fun z => ¬ z = x))
            (le_trans (List.length_filter_le _ _)
              (Nat.le_of_succ_le_succ (by simpa using hl))) y).mp hy
          exact Or.inr (List.mem_of_mem_filter hmem)
      · rintro (rfl | hy)
        · exact Or.inl rfl
        · by_cases hxy : y = x
          · exact Or.inl hxy
          · refine Or.inr ((ih (t.filter (fun z => ¬ z = x))
              (le_trans (List.length_filter_le _ _)
                (Nat.le_of_succ_le_succ (by simpa using hl))) y).mpr ?_)
            exact List.mem_filter.mpr ⟨hy, by simpa using hxy⟩

theorem mem_dedupFirst (l : List String) (y : String) :
    y ∈ dedupFirst l ↔ y ∈ l :=
  mem_dedupFirst_aux l.length l (le_refl _) y

theorem dedupFirst_filter_aux :
    ∀ (n : ℕ) (l : List String), l.length ≤ n → ∀ (q : String → Bool),
      dedupFirst (l.filter q) = (dedupFirst l).filter q := by
  intro n
  induction n with
  | zero =>
    intro l hl q
    cases l with
    | nil => simp [dedupFirst]
    | cons x t => simp at hl
  | succ n ih =>
    intro l hl q
    cases l with
    | nil => simp [dedupFirst]
    | cons x t =>
      have hlt : t.length ≤ n := Nat.le_of_succ_le_succ (by simpa using hl)
      by_cases hq : q x = true
      · rw [List.filter_cons_of_pos hq, dedupFirst, dedupFirst,
          List.filter_cons_of_pos hq]
        congr 1
        rw [List.filter_comm]
        rw [ih (t.filter (fun z => ¬ z = x)) (le_trans (List.length_filter_le _ _) hlt) q]
      · rw [List.filter_cons_of_neg hq, dedupFirst,
          List.filter_cons_of_neg hq,
          ih t hlt q,
          ih t hlt (fun z => ¬ z = x),
          List.filter_filter]
        apply List.filter_congr
        intro y hy
        cases hqy : q y with
        | false => simp [hqy]
        | true =>
          have hyx : ¬ y = x := by
            intro h0
            rw [h0] at hqy
            exact hq hqy
          simp [hqy, hyx]

theorem dedupFirst_filter (q : String → Bool) (l : List String) :
    dedupFirst (l.filter q) = (dedupFirst l).filter q :=
  dedupFirst_filter_aux l.length l (le_refl _) q

theorem filter_map_name (df : List SheetRow) (p : SheetRow → Bool)
    (q : String → Bool) (h : ∀ r ∈ df, p r = q r.propertyName) :
    (df.filter p).map (fun r => r.propertyName) =
      (df.map (fun r => r.propertyName)).filter q := by
  induction df with
  | nil => rfl
  | cons r t ih =>
    have hr := h r (List.mem_cons_self _ _)
    have iht := ih (fun x hx => h x (List.mem_cons_of_mem _ hx))
    by_cases hp : p r = true
    · rw [List.filter_cons_of_pos hp, List.map_cons, List.map_cons,
        List.filter_cons_of_pos (by rw [← hr]; exact hp), iht]
    · rw [List.filter_cons_of_neg hp, List.map_cons,
        List.filter_cons_of_neg (by rw [← hr]; simpa using hp), iht]

/-- C7: with any prerequisite missing, both discovery tools return the
missing-prerequisite signal carrying exactly the first missing field in the
fixed order profession → timeline → room type, and their result and the
catalog state are independent of the distance function, the geocoder answer,
the budget query and the catalog — no lookup, geocoding or result computation
happens. -/
theorem missing_prereq_short_circuits (ctx : UserContext) (f : PrereqField)
    (hf : firstMissing ctx = some f) :
    (∀ hav geo rows?,
      find_nearest_property hav ctx geo rows? = (.missingPrereq f, rows?)) ∧
    (∀ budget_query rows?,
      properties_according_to_budget ctx budget_query rows? =
        (.missingPrereq f, rows?)) ∧
    (truthy ctx.botProfession = false → f = .profession) ∧
    (truthy ctx.botProfession = true → truthy ctx.botMoveInPreference = false →
      f = .timeline) ∧
    (truthy ctx.botProfession = true → truthy ctx.botMoveInPreference = true →
      truthy ctx.botRoomSharingPreference = false → f = .roomType) := by
  refine ⟨?_, ?_, ?_, ?_, ?_⟩
  · intro hav geo rows?
    simp [find_nearest_property, hf]
  · intro budget_query rows?
    simp [properties_according_to_budget, hf]
  · intro h1
    simp [firstMissing, h1] at hf
    exact hf.symm
  · intro h1 h2
    simp [firstMissing, h1, h2] at hf
    exact hf.symm
  · intro h1 h2 h3
    simp [firstMissing, h1, h2, h3] at hf
    exact hf.symm

/-- Witness for C7: an empty context short-circuits both tools with the
profession question, leaving the catalog state untouched. -/
theorem missing_prereq_short_circuits_witness :
    find_nearest_property (fun _ _ _ _ => 0) ⟨none, none, none, none⟩ none none
      = (.missingPrereq .profession, none) ∧
    properties_according_to_budget ⟨none, none, none, none⟩ "8000" (some [])
      = (.missingPrereq .profession, some []) :=
  ⟨(missing_prereq_short_circuits ⟨none, none, none, none⟩ .profession
      (by decide)).1 _ _ _,
   (missing_prereq_short_circuits ⟨none, none, none, none⟩ .profession
      (by decide)).2.1 _ _⟩

theorem get_room_availability_pos (data : List PropAvail) :
    ∀ e ∈ get_room_availability data, 0 < e.availableBeds := by
  induction data with
  | nil =>
    intro e he
    cases he
  | cons pd t ih =>
    intro e he
    unfold get_room_availability at he
    rw [List.foldr_cons] at he
    rcases List.mem_append.mp he with h1 | h2
    · obtain ⟨a, ha, rfl⟩ := List.mem_map.mp h1
      simpa using (List.mem_filter.mp ha).2
    · exact ih e h2

theorem availabilityStep_fold_pos (pm : List (ℕ × PropInfo)) :
    ∀ (data : List PropAvail) (p : PropSummary),
      p ∈ data.foldr (availabilityStep pm) [] →
      0 < p.availableBeds ∧ ∀ e ∈ p.rooms, 0 < e.availableBeds := by
  intro data
  induction data with
  | nil =>
    intro p hp
    cases hp
  | cons pa t ih =>
    intro p hp
    rw [List.foldr_cons] at hp
    unfold availabilityStep at hp
    cases hm : nlookup pm pa.propertyId with
    | none =>
      rw [hm] at hp
      exact ih p hp
    | some info =>
      rw [hm] at hp
      dsimp only at hp
      by_cases htot : 0 < ((pa.availability.filter
          (fun a => 0 < a.availableBeds)).map (fun a => a.availableBeds)).sum
      · rw [if_pos htot] at hp
        rcases List.mem_cons.mp hp with rfl | hp'
        · refine ⟨htot, ?_⟩
          intro e he
          obtain ⟨a, ha, rfl⟩ := List.mem_map.mp he
          simpa using (List.mem_filter.mp ha).2
        · exact ih p hp'
      · rw [if_neg htot] at hp
        exact ih p hp

/-- C6: the availability aggregator never reports a zero-availability entry:
in the single-property form every reported room type has positive available
beds, and in the all-properties form every reported room summary has positive
available beds and every reported property has a positive summed bed count. -/
theorem availability_never_zero (pm : List (ℕ × PropInfo))
    (data : List PropAvail) :
    (∀ e ∈ get_room_availability data, 0 < e.availableBeds) ∧
    (∀ p ∈ get_all_room_availability pm data,
      0 < p.availableBeds ∧ ∀ e ∈ p.rooms, 0 < e.availableBeds) := by
  refine ⟨get_room_availability_pos data, ?_⟩
  intro p hp
  unfold get_all_room_availability at hp
  rw [mem_sortLe] at hp
  exact availabilityStep_fold_pos pm data p hp

/-- Witness for C6 on a concrete availability payload with a zero-bed room
type that gets dropped. -/
theorem availability_never_zero_witness :
    (0 : ℤ) < (⟨"Single", 2, 1, 1⟩ : RoomEntry).availableBeds ∧
    ((0 : ℤ) <
      (⟨1, "Amara", "addr", "Chennai", 2, [⟨"Single", 2, 1, 1⟩]⟩ :
        PropSummary).availableBeds ∧
      ∀ e ∈ (⟨1, "Amara", "addr", "Chennai", 2, [⟨"Single", 2, 1, 1⟩]⟩ :
        PropSummary).rooms, 0 < e.availableBeds) :=
  ⟨(availability_never_zero [(1, ⟨"Amara", "addr", "Chennai"⟩)]
      [⟨1, [⟨"Single", 2, 1, 1⟩, ⟨"Twin", 0, 0, 0⟩]⟩]).1 _ (by decide),
   (availability_never_zero [(1, ⟨"Amara", "addr", "Chennai"⟩)]
      [⟨1, [⟨"Single", 2, 1, 1⟩, ⟨"Twin", 0, 0, 0⟩]⟩]).2 _ (by decide)⟩

theorem firstMinBy_isSome (f : SheetRow → ℚ) (l : List SheetRow)
    (h : l ≠ []) : ∃ m, firstMinBy f l = some m := by
  cases l with
  | nil => exact absurd rfl h
  | cons r t =>
    rw [firstMinBy]
    cases firstMinBy f t with
    | none => exact ⟨r, rfl⟩
    | some m =>
      by_cases hc : f r ≤ f m
      · refine ⟨r, ?_⟩
        show (if f r ≤ f m then some r else some m) = some r
        rw [if_pos hc]
      · refine ⟨m, ?_⟩
        show (if f r ≤ f m then some r else some m) = some m
        rw [if_neg hc]

theorem isEmpty_false_of_ne_nil {α : Type} (l : List α) (h : l ≠ []) :
    l.isEmpty = false := by
  cases l with
  | nil => exact absurd rfl h
  | cons a t => rfl

/-- The cached-frame state after a `find_nearest_property` call that reaches
the distance step is the frame with the `distance_km` column assigned,
whatever happens later in the call. -/
theorem find_nearest_snd (hav : ℚ → ℚ → ℚ → ℚ → ℚ) (ctx : UserContext)
    (p : ℚ × ℚ) (rows : List SheetRow)
    (hpre : firstMissing ctx = none) (hne : rows ≠ []) :
    (find_nearest_property hav ctx (some p) (some rows)).2 =
      some (assignDistanceColumn hav p.1 p.2 rows) := by
  have hne' : assignDistanceColumn hav p.1 p.2 rows ≠ [] := by
    unfold assignDistanceColumn
    simpa using hne
  obtain ⟨m, hm⟩ := firstMinBy_isSome rowDist _ hne'
  unfold find_nearest_property
  rw [hpre]
  dsimp only
  rw [if_neg (by simp [isEmpty_false_of_ne_nil rows hne])]
  rw [hm]
  dsimp only
  cases extract_unique_properties ((assignDistanceColumn hav p.1 p.2 rows).filter
      (fun r => r.cluster = m.cluster)) with
  | none => rfl
  | some cu =>
    dsimp only
    split
    · cases extract_unique_properties ((assignDistanceColumn hav p.1 p.2 rows).filter
          (fun r => ¬ r.cluster = m.cluster)) with
      | none => rfl
      | some ou => rfl
    · rfl

/-- The cached-frame state after a `properties_according_to_budget` call that
reaches the filtering step is the frame with the `Price` column rewritten,
whatever the filter outcome. -/
theorem budget_snd (ctx : UserContext) (q : String) (rows rows2 : List SheetRow)
    (b : ℕ) (hpre : firstMissing ctx = none) (hb : extractBudget q = some b)
    (hne : rows ≠ []) (hclean : cleanPriceColumn rows = some rows2) :
    (properties_according_to_budget ctx q (some rows)).2 = some rows2 := by
  unfold properties_according_to_budget
  rw [hpre]
  dsimp only
  rw [hb]
  dsimp only
  rw [if_neg (by simp [isEmpty_false_of_ne_nil rows hne])]
  rw [hclean]
  dsimp only
  split
  · rfl
  · cases extract_unique_budget (narrowCluster ctx
        (rows2.filter (fun r => priceNum r.price ≤ (b : ℚ)))) with
    | none => rfl
    | some up => rfl

theorem cleanPriceColumn_isSome (rows : List SheetRow)
    (hparse : ∀ r ∈ rows, (priceFloat r.price).isSome) :
    ∃ rows2, cleanPriceColumn rows = some rows2 := by
  apply omap_isSome
  intro r hr
  have hs := hparse r hr
  cases hq : priceFloat r.price with
  | none =>
    rw [hq] at hs
    cases hs
  | some qv => rfl

theorem mem_cleanPriceColumn (rows rows2 : List SheetRow)
    (h : cleanPriceColumn rows = some rows2) (r' : SheetRow)
    (hr' : r' ∈ rows2) :
    ∃ r ∈ rows, ∃ qv, priceFloat r.price = some qv ∧
      r' = { r with price := PriceCell.num qv } := by
  obtain ⟨r, hr, hf⟩ := omap_mem _ rows rows2 h r' hr'
  cases hq : priceFloat r.price with
  | none =>
    rw [hq] at hf
    cases hf
  | some qv =>
    rw [hq] at hf
    refine ⟨r, hr, qv, hq, ?_⟩
    cases hf
    rfl

theorem assignDistanceColumn_parse (hav : ℚ → ℚ → ℚ → ℚ → ℚ) (ulat ulng : ℚ)
    (rows : List SheetRow) (hparse : ∀ r ∈ rows, (priceFloat r.price).isSome) :
    ∀ r' ∈ assignDistanceColumn hav ulat ulng rows,
      (priceFloat r'.price).isSome := by
  intro r' hr'
  obtain ⟨r, hr, rfl⟩ := List.mem_map.mp hr'
  exact hparse r hr

/-- C10: both query tools mutate the shared cached dataframe in place.
A `find_nearest_property` call that reaches the distance step leaves the
cache holding the frame with the `distance_km` column written for every row;
a `properties_according_to_budget` call that reaches the filtering step
leaves the cache holding the frame with every `Price` cell coerced to a
number; and a subsequent call made on the resulting state observes both
mutations (here: the budget call run on the state produced by the location
call returns a state whose rows all carry the assigned distance column and
numeric prices). -/
theorem queries_mutate_cached_frame (hav : ℚ → ℚ → ℚ → ℚ → ℚ)
    (ctx : UserContext) (p : ℚ × ℚ) (q : String) (rows : List SheetRow)
    (b : ℕ) (hpre : firstMissing ctx = none) (hne : rows ≠ [])
    (hb : extractBudget q = some b)
    (hparse : ∀ r ∈ rows, (priceFloat r.price).isSome) :
    ((find_nearest_property hav ctx (some p) (some rows)).2 =
      some (assignDistanceColumn hav p.1 p.2 rows) ∧
     ∀ r' ∈ assignDistanceColumn hav p.1 p.2 rows,
       r'.distance_km = some (hav p.1 p.2 r'.lat r'.lon)) ∧
    (∃ rows2, cleanPriceColumn rows = some rows2 ∧
      (properties_according_to_budget ctx q (some rows)).2 = some rows2 ∧
      ∀ r' ∈ rows2, ∃ qv, r'.price = PriceCell.num qv) ∧
    (∃ rows3,
      cleanPriceColumn (assignDistanceColumn hav p.1 p.2 rows) = some rows3 ∧
      (properties_according_to_budget ctx q
        (find_nearest_property hav ctx (some p) (some rows)).2).2 = some rows3 ∧
      ∀ r' ∈ rows3, (∃ v, r'.distance_km = some v) ∧
        ∃ qv, r'.price = PriceCell.num qv) := by
  have hsnd := find_nearest_snd hav ctx p rows hpre hne
  have hne2 : assignDistanceColumn hav p.1 p.2 rows ≠ [] := by
    unfold assignDistanceColumn
    simpa using hne
  refine ⟨⟨hsnd, ?_⟩, ?_, ?_⟩
  · intro r' hr'
    obtain ⟨r, hr, rfl⟩ := List.mem_map.mp hr'
    rfl
  · obtain ⟨rows2, h2⟩ := cleanPriceColumn_isSome rows hparse
    refine ⟨rows2, h2, budget_snd ctx q rows rows2 b hpre hb hne h2, ?_⟩
    intro r' hr'
    obtain ⟨r, hr, qv, hq, rfl⟩ := mem_cleanPriceColumn rows rows2 h2 r' hr'
    exact ⟨qv, rfl⟩
  · obtain ⟨rows3, h3⟩ := cleanPriceColumn_isSome _
      (assignDistanceColumn_parse hav p.1 p.2 rows hparse)
    rw [hsnd]
    refine ⟨rows3, h3, budget_snd ctx q _ rows3 b hpre hb hne2 h3, ?_⟩
    intro r' hr'
    obtain ⟨r, hr, qv, hq, rfl⟩ := mem_cleanPriceColumn _ rows3 h3 r' hr'
    obtain ⟨r0, hr0, rfl⟩ := List.mem_map.mp hr
    exact ⟨⟨_, rfl⟩, ⟨qv, rfl⟩⟩

/-- Witness for C10 on a one-row catalog. -/
theorem queries_mutate_cached_frame_witness :
    ((find_nearest_property (fun _ _ _ _ => 3) ⟨some "working", some "now",
        some "private", none⟩ (some (0, 0))
        (some [⟨"Amara", "OMR", "OMR", .raw "8,000", 1, 2, none⟩])).2 =
      some (assignDistanceColumn (fun _ _ _ _ => 3) 0 0
        [⟨"Amara", "OMR", "OMR", .raw "8,000", 1, 2, none⟩]) ∧
     ∀ r' ∈ assignDistanceColumn (fun _ _ _ _ => 3) 0 0
        [⟨"Amara", "OMR", "OMR", .raw "8,000", 1, 2, none⟩],
       r'.distance_km = some 3) ∧
    (∃ rows2, cleanPriceColumn
        [⟨"Amara", "OMR", "OMR", .raw "8,000", 1, 2, none⟩] = some rows2 ∧
      (properties_according_to_budget ⟨some "working", some "now",
        some "private", none⟩ "my budget is 8,000"
        (some [⟨"Amara", "OMR", "OMR", .raw "8,000", 1, 2, none⟩])).2 =
          some rows2 ∧
      ∀ r' ∈ rows2, ∃ qv, r'.price = PriceCell.num qv) ∧
    (∃ rows3,
      cleanPriceColumn (assignDistanceColumn (fun _ _ _ _ => 3) 0 0
        [⟨"Amara", "OMR", "OMR", .raw "8,000", 1, 2, none⟩]) = some rows3 ∧
      (properties_according_to_budget ⟨some "working", some "now",
        some "private", none⟩ "my budget is 8,000"
        (find_nearest_property (fun _ _ _ _ => 3) ⟨some "working", some "now",
          some "private", none⟩ (some (0, 0))
          (some [⟨"Amara", "OMR", "OMR", .raw "8,000", 1, 2, none⟩])).2).2 =
        some rows3 ∧
      ∀ r' ∈ rows3, (∃ v, r'.distance_km = some v) ∧
        ∃ qv, r'.price = PriceCell.num qv) :=
  queries_mutate_cached_frame (fun _ _ _ _ => 3)
    ⟨some "working", some "now", some "private", none⟩ (0, 0)
    "my budget is 8,000" [⟨"Amara", "OMR", "OMR", .raw "8,000", 1, 2, none⟩]
    8000 (by decide) (by decide) (by decide) (by decide)

theorem listMin_le_left (x : ℚ) (l : List ℚ) : listMin x l ≤ x := by
  unfold listMin
  induction l generalizing x with
  | nil => exact le_refl x
  | cons y t ih => exact le_trans (ih (min x y)) (min_le_left x y)

theorem pyInt_le_ofNat (q : ℚ) (b : ℕ) (h : q ≤ (b : ℚ)) :
    pyInt q ≤ (b : ℤ) := by
  unfold pyInt
  split
  · calc ⌊q⌋ ≤ ⌊(b : ℚ)⌋ := Int.floor_le_floor h
      _ = (b : ℤ) := by
        rw [Int.floor_natCast]
  · have hq : q < 0 := lt_of_not_le (by assumption)
    have h0 : ⌈q⌉ ≤ (0 : ℤ) := Int.ceil_le.mpr (by exact_mod_cast le_of_lt hq)
    exact le_trans h0 (Int.ofNat_nonneg b)

theorem filter_name_ne_nil (df : List SheetRow) (name : String)
    (h : name ∈ df.map (fun r => r.propertyName)) :
    df.filter (fun r => r.propertyName = name) ≠ [] := by
  obtain ⟨r, hr, hname⟩ := List.mem_map.mp h
  intro h0
  have hmem : r ∈ df.filter (fun r => r.propertyName = name) :=
    List.mem_filter.mpr ⟨hr, by simp [hname]⟩
  rw [h0] at hmem
  cases hmem

theorem extractOneBudget_spec (df : List SheetRow) (name : String)
    (bp : BudgetProp) (h : extractOneBudget df name = some bp) :
    bp.property_name = name ∧
    ∃ first rest, df.filter (fun r => r.propertyName = name) = first :: rest ∧
      first ∈ df ∧ first.propertyName = name ∧
      bp.min_price = pyInt (listMin (priceNum first.price)
        (rest.map (fun r => priceNum r.price))) := by
  unfold extractOneBudget at h
  cases hf : df.filter (fun r => r.propertyName = name) with
  | nil =>
    rw [hf] at h
    cases h
  | cons first rest =>
    rw [hf] at h
    cases h
    have hmem : first ∈ df.filter (fun r => r.propertyName = name) := by
      rw [hf]
      exact List.mem_cons_self _ _
    refine ⟨rfl, first, rest, rfl, List.mem_of_mem_filter hmem, ?_, rfl⟩
    have := (List.mem_filter.mp hmem).2
    simpa using this

theorem extract_unique_budget_isSome (df : List SheetRow) :
    ∃ up, extract_unique_budget df = some up := by
  apply omap_isSome
  intro name hname
  have h1 : name ∈ df.map (fun r => r.propertyName) :=
    (mem_dedupFirst _ name).mp hname
  have h2 := filter_name_ne_nil df name h1
  unfold extractOneBudget
  cases hf : df.filter (fun r => r.propertyName = name) with
  | nil => exact absurd hf h2
  | cons first rest => rfl

theorem narrowCluster_subset (ctx : UserContext) (fl : List SheetRow) :
    ∀ r ∈ narrowCluster ctx fl, r ∈ fl := by
  intro r hr
  unfold narrowCluster at hr
  split at hr
  · exact hr
  · dsimp only at hr
    split at hr
    · exact hr
    · split at hr
      · exact hr
      · exact List.mem_of_mem_filter hr

theorem narrowCluster_ne_nil (ctx : UserContext) (fl : List SheetRow)
    (h : fl ≠ []) : narrowCluster ctx fl ≠ [] := by
  unfold narrowCluster
  split
  · exact h
  · dsimp only
    split
    · exact h
    · split
      · exact h
      · intro h0
        rename_i he
        rw [h0] at he
        exact he rfl

theorem narrowCluster_eq_cluster (ctx : UserContext) (fl : List SheetRow)
    (c : String) (hc : ctx.cluster = some c) (hce : c.isEmpty = false)
    (hne : fl.filter (fun r => r.cluster = c) ≠ []) :
    narrowCluster ctx fl = fl.filter (fun r => r.cluster = c) := by
  unfold narrowCluster
  rw [hc]
  dsimp only
  rw [if_neg (by simp [hce])]
  rw [if_neg (by simp [isEmpty_false_of_ne_nil _ hne])]

theorem narrowCluster_eq_full (ctx : UserContext) (fl : List SheetRow)
    (c : String) (hc : ctx.cluster = some c) (hce : c.isEmpty = false)
    (he : fl.filter (fun r => r.cluster = c) = []) :
    narrowCluster ctx fl = fl := by
  unfold narrowCluster
  rw [hc]
  dsimp only
  rw [if_neg (by simp [hce])]
  rw [if_pos (by simp [he])]

theorem budget_none_case (ctx : UserContext) (q : String)
    (rows rows2 : List SheetRow) (b : ℕ) (hpre : firstMissing ctx = none)
    (hb : extractBudget q = some b) (hne : rows ≠ [])
    (hclean : cleanPriceColumn rows = some rows2)
    (hfil : rows2.filter (fun r => priceNum r.price ≤ (b : ℚ)) = []) :
    (properties_according_to_budget ctx q (some rows)).1 =
      .noneUnderBudget b := by
  unfold properties_according_to_budget
  rw [hpre]
  dsimp only
  rw [hb]
  dsimp only
  rw [if_neg (by simp [isEmpty_false_of_ne_nil rows hne]), hclean]
  dsimp only
  rw [if_pos (by simp [hfil])]

theorem budget_found_case (ctx : UserContext) (q : String)
    (rows rows2 : List SheetRow) (b : ℕ) (up : List BudgetProp)
    (hpre : firstMissing ctx = none) (hb : extractBudget q = some b)
    (hne : rows ≠ []) (hclean : cleanPriceColumn rows = some rows2)
    (hfil : rows2.filter (fun r => priceNum r.price ≤ (b : ℚ)) ≠ [])
    (hup : extract_unique_budget (narrowCluster ctx
      (rows2.filter (fun r => priceNum r.price ≤ (b : ℚ)))) = some up) :
    (properties_according_to_budget ctx q (some rows)).1 =
      .found ((sortLe priceLe up).take 5) b := by
  unfold properties_according_to_budget
  rw [hpre]
  dsimp only
  rw [hb]
  dsimp only
  rw [if_neg (by simp [isEmpty_false_of_ne_nil rows hne]), hclean]
  dsimp only
  rw [if_neg (by simp [isEmpty_false_of_ne_nil _ hfil]), hup]

/-- C5: for every budget query with a parsed budget, every property returned
by the budget tool has minimum price at most the parsed budget; if the user
context holds a truthy selected cluster whose intersection with the
budget-filtered rows is non-empty, every returned property belongs to that
cluster; and an empty intersection falls back to the full budget-filtered set
(so the result is still non-empty whenever the filtered set is). -/
theorem budget_results_within_budget (ctx : UserContext) (q : String)
    (rows : List SheetRow) (b : ℕ)
    (hpre : firstMissing ctx = none) (hb : extractBudget q = some b)
    (hne : rows ≠ []) (hparse : ∀ r ∈ rows, (priceFloat r.price).isSome) :
    ∃ rows2, cleanPriceColumn rows = some rows2 ∧
      (rows2.filter (fun r => priceNum r.price ≤ (b : ℚ)) = [] →
        (properties_according_to_budget ctx q (some rows)).1 =
          .noneUnderBudget b) ∧
      (rows2.filter (fun r => priceNum r.price ≤ (b : ℚ)) ≠ [] →
        ∃ props,
          (properties_according_to_budget ctx q (some rows)).1 =
            .found props b ∧
          props ≠ [] ∧
          (∀ bp ∈ props, bp.min_price ≤ (b : ℤ)) ∧
          (∀ c, ctx.cluster = some c → c.isEmpty = false →
            (rows2.filter (fun r => priceNum r.price ≤ (b : ℚ))).filter
              (fun r => r.cluster = c) ≠ [] →
            ∀ bp ∈ props,
              ∃ r ∈ rows2.filter (fun r => priceNum r.price ≤ (b : ℚ)),
                r.cluster = c ∧ r.propertyName = bp.property_name) ∧
          (∀ c, ctx.cluster = some c → c.isEmpty = false →
            (rows2.filter (fun r => priceNum r.price ≤ (b : ℚ))).filter
              (fun r => r.cluster = c) = [] →
            narrowCluster ctx
              (rows2.filter (fun r => priceNum r.price ≤ (b : ℚ))) =
              rows2.filter (fun r => priceNum r.price ≤ (b : ℚ)))) := by
  obtain ⟨rows2, hclean⟩ := cleanPriceColumn_isSome rows hparse
  refine ⟨rows2, hclean, ?_, ?_⟩
  · intro hfil
    exact budget_none_case ctx q rows rows2 b hpre hb hne hclean hfil
  · intro hfil
    obtain ⟨up, hup⟩ := extract_unique_budget_isSome
      (narrowCluster ctx (rows2.filter (fun r => priceNum r.price ≤ (b : ℚ))))
    have hfound := budget_found_case ctx q rows rows2 b up hpre hb hne hclean
      hfil hup
    have hinflt : ∀ r ∈ rows2.filter (fun r => priceNum r.price ≤ (b : ℚ)),
        priceNum r.price ≤ (b : ℚ) := by
      intro r hr
      have := (List.mem_filter.mp hr).2
      simpa using this
    have hmemup : ∀ bp ∈ (sortLe priceLe up).take 5,
        ∃ first ∈ narrowCluster ctx
          (rows2.filter (fun r => priceNum r.price ≤ (b : ℚ))),
          first.propertyName = bp.property_name ∧
          bp.min_price = pyInt (listMin (priceNum first.price)
            (((narrowCluster ctx (rows2.filter
              (fun r => priceNum r.price ≤ (b : ℚ)))).filter
              (fun r => r.propertyName = bp.property_name)).tail.map
              (fun r => priceNum r.price))) := by
      intro bp hbp
      have h1 : bp ∈ sortLe priceLe up := List.mem_of_mem_take hbp
      have h2 : bp ∈ up := (mem_sortLe _ _ _).mp h1
      obtain ⟨name, hname, hone⟩ := omap_mem _ _ _ hup bp h2
      obtain ⟨hpn, first, rest, hf, hfm, hfname, hmin⟩ :=
        extractOneBudget_spec _ name bp hone
      refine ⟨first, hfm, by rw [hfname, hpn], ?_⟩
      rw [hmin, hpn, hf]
      rfl
    refine ⟨(sortLe priceLe up).take 5, hfound, ?_, ?_, ?_, ?_⟩
    · have hn1 : narrowCluster ctx
          (rows2.filter (fun r => priceNum r.price ≤ (b : ℚ))) ≠ [] :=
        narrowCluster_ne_nil ctx _ hfil
      have hn2 : dedupFirst ((narrowCluster ctx (rows2.filter
          (fun r => priceNum r.price ≤ (b : ℚ)))).map
          (fun r => r.propertyName)) ≠ [] := by
        cases hcl : narrowCluster ctx
            (rows2.filter (fun r => priceNum r.price ≤ (b : ℚ))) with
        | nil => exact absurd hcl hn1
        | cons r t =>
          rw [List.map_cons, dedupFirst]
          intro h0
          cases h0
      have hlen := omap_length _ _ _ hup
      intro h0
      have : ((sortLe priceLe up).take 5).length = 0 := by rw [h0]; rfl
      rw [List.length_take, length_sortLe, hlen] at this
      cases hdl : (dedupFirst ((narrowCluster ctx (rows2.filter
          (fun r => priceNum r.price ≤ (b : ℚ)))).map
          (fun r => r.propertyName))) with
      | nil => exact hn2 hdl
      | cons a t =>
        rw [hdl] at this
        simp at this
    · intro bp hbp
      obtain ⟨first, hfm, hfname, hmin⟩ := hmemup bp hbp
      have hfin : first ∈ rows2.filter (fun r => priceNum r.price ≤ (b : ℚ)) :=
        narrowCluster_subset ctx _ first hfm
      have hle : priceNum first.price ≤ (b : ℚ) := hinflt first hfin
      rw [hmin]
      exact pyInt_le_ofNat _ b (le_trans (listMin_le_left _ _) hle)
    · intro c hc hce hic bp hbp
      obtain ⟨first, hfm, hfname, hmin⟩ := hmemup bp hbp
      rw [narrowCluster_eq_cluster ctx _ c hc hce hic] at hfm
      have h1 := List.mem_filter.mp hfm
      refine ⟨first, h1.1, by simpa using h1.2, hfname⟩
    · intro c hc hce hic
      exact narrowCluster_eq_full ctx _ c hc hce hic

/-- Witness for C5: budget 8000 over a two-row catalog with prices 6,000 and
9,000 and a selected cluster. -/
theorem budget_results_within_budget_witness :
    ∃ rows2, cleanPriceColumn
        [⟨"A", "OMR", "OMR", .raw "6,000", 0, 0, none⟩,
         ⟨"B", "ECR", "ECR", .raw "9,000", 0, 0, none⟩] = some rows2 ∧
      (rows2.filter (fun r => priceNum r.price ≤ ((8000 : ℕ) : ℚ)) = [] →
        (properties_according_to_budget
          ⟨some "working", some "now", some "private", some "OMR"⟩
          "my budget is 8,000"
          (some [⟨"A", "OMR", "OMR", .raw "6,000", 0, 0, none⟩,
                 ⟨"B", "ECR", "ECR", .raw "9,000", 0, 0, none⟩])).1 =
          .noneUnderBudget 8000) ∧
      (rows2.filter (fun r => priceNum r.price ≤ ((8000 : ℕ) : ℚ)) ≠ [] →
        ∃ props,
          (properties_according_to_budget
            ⟨some "working", some "now", some "private", some "OMR"⟩
            "my budget is 8,000"
            (some [⟨"A", "OMR", "OMR", .raw "6,000", 0, 0, none⟩,
                   ⟨"B", "ECR", "ECR", .raw "9,000", 0, 0, none⟩])).1 =
            .found props 8000 ∧
          props ≠ [] ∧
          (∀ bp ∈ props, bp.min_price ≤ ((8000 : ℕ) : ℤ)) ∧
          (∀ c, (⟨some "working", some "now", some "private",
              some "OMR"⟩ : UserContext).cluster = some c →
            c.isEmpty = false →
            (rows2.filter (fun r => priceNum r.price ≤ ((8000 : ℕ) : ℚ))).filter
              (fun r => r.cluster = c) ≠ [] →
            ∀ bp ∈ props,
              ∃ r ∈ rows2.filter (fun r => priceNum r.price ≤ ((8000 : ℕ) : ℚ)),
                r.cluster = c ∧ r.propertyName = bp.property_name) ∧
          (∀ c, (⟨some "working", some "now", some "private",
              some "OMR"⟩ : UserContext).cluster = some c →
            c.isEmpty = false →
            (rows2.filter (fun r => priceNum r.price ≤ ((8000 : ℕ) : ℚ))).filter
              (fun r => r.cluster = c) = [] →
            narrowCluster ⟨some "working", some "now", some "private",
              some "OMR"⟩
              (rows2.filter (fun r => priceNum r.price ≤ ((8000 : ℕ) : ℚ))) =
              rows2.filter (fun r => priceNum r.price ≤ ((8000 : ℕ) : ℚ)))) :=
  budget_results_within_budget
    ⟨some "working", some "now", some "private", some "OMR"⟩
    "my budget is 8,000"
    [⟨"A", "OMR", "OMR", .raw "6,000", 0, 0, none⟩,
     ⟨"B", "ECR", "ECR", .raw "9,000", 0, 0, none⟩]
    8000 (by decide) (by decide) (by decide) (by decide)

theorem extractOne_isSome (df : List SheetRow) (name : String)
    (hn : name ∈ df.map (fun r => r.propertyName))
    (hp : ∀ r ∈ df, (priceFloat r.price).isSome) :
    (extractOne df name).isSome := by
  unfold extractOne
  cases hf : df.filter (fun r => r.propertyName = name) with
  | nil => exact absurd hf (filter_name_ne_nil df name hn)
  | cons first rest =>
    dsimp only
    have hfirst : first ∈ df := List.mem_of_mem_filter
      (by rw [hf]; exact List.mem_cons_self _ _)
    have h1 := hp first hfirst
    cases h0 : priceFloat first.price with
    | none =>
      rw [h0] at h1
      cases h1
    | some p0 =>
      have hrest : ∀ r ∈ rest, (priceFloat r.price).isSome := by
        intro r hr
        have hmem : r ∈ df.filter (fun r => r.propertyName = name) := by
          rw [hf]
          exact List.mem_cons_of_mem _ hr
        exact hp r (List.mem_of_mem_filter hmem)
      obtain ⟨ps, hps⟩ := omap_isSome _ rest hrest
      rw [hps]
      rfl

theorem extract_unique_isSome (df : List SheetRow)
    (hp : ∀ r ∈ df, (priceFloat r.price).isSome) :
    ∃ l, extract_unique_properties df = some l := by
  apply omap_isSome
  intro name hname
  exact extractOne_isSome df name ((mem_dedupFirst _ _).mp hname) hp

theorem extractOne_spec (df : List SheetRow) (name : String) (u : UniqueProp)
    (h : extractOne df name = some u) :
    u.property_name = name ∧
    ∃ first, first ∈ df ∧ first.propertyName = name ∧
      u.cluster = first.cluster := by
  unfold extractOne at h
  cases hf : df.filter (fun r => r.propertyName = name) with
  | nil =>
    rw [hf] at h
    cases h
  | cons first rest =>
    rw [hf] at h
    dsimp only at h
    cases h0 : priceFloat first.price with
    | none =>
      rw [h0] at h
      cases h
    | some p0 =>
      rw [h0] at h
      cases hps : omap (fun r => priceFloat r.price) rest with
      | none =>
        rw [hps] at h
        cases h
      | some ps =>
        rw [hps] at h
        cases h
        have hmem : first ∈ df.filter (fun r => r.propertyName = name) := by
          rw [hf]
          exact List.mem_cons_self _ _
        exact ⟨rfl, first, List.mem_of_mem_filter hmem,
          by simpa using (List.mem_filter.mp hmem).2, rfl⟩

theorem extract_cluster_eq (rows' : List SheetRow) (c : String)
    (l : List UniqueProp)
    (h : extract_unique_properties (rows'.filter (fun r => r.cluster = c)) =
      some l) :
    ∀ u ∈ l, u.cluster = c := by
  intro u hu
  obtain ⟨name, hname, hone⟩ := omap_mem _ _ _ h u hu
  obtain ⟨hpn, first, hfm, hfname, hcl⟩ := extractOne_spec _ name u hone
  have h2 := (List.mem_filter.mp hfm).2
  rw [hcl]
  simpa using h2

theorem extract_cluster_ne (rows' : List SheetRow) (c : String)
    (l : List UniqueProp)
    (h : extract_unique_properties (rows'.filter (fun r => ¬ r.cluster = c)) =
      some l) :
    ∀ u ∈ l, u.cluster ≠ c := by
  intro u hu
  obtain ⟨name, hname, hone⟩ := omap_mem _ _ _ h u hu
  obtain ⟨hpn, first, hfm, hfname, hcl⟩ := extractOne_spec _ name u hone
  have h2 := (List.mem_filter.mp hfm).2
  rw [hcl]
  simpa using h2

theorem assign_names (hav : ℚ → ℚ → ℚ → ℚ → ℚ) (a b : ℚ)
    (rows : List SheetRow) :
    (assignDistanceColumn hav a b rows).map (fun r => r.propertyName) =
      rows.map (fun r => r.propertyName) := by
  unfold assignDistanceColumn
  rw [List.map_map]
  rfl

/-- C2: for every successful geocode over a non-empty catalog whose price
cells all parse and in which every property name determines one cluster,
`find_nearest_property` returns exactly `min 7 (number of unique property
names)` entries; entries of the nearest cluster precede all fill-in entries
from other clusters, each block is sorted by ascending distance (so fill-ins
are never interleaved with cluster members), and whenever the nearest cluster
alone has at least 7 unique properties the result is its first 7 by
distance. -/
theorem nearest_cluster_result (hav : ℚ → ℚ → ℚ → ℚ → ℚ) (ctx : UserContext)
    (p : ℚ × ℚ) (rows : List SheetRow)
    (hpre : firstMissing ctx = none) (hne : rows ≠ [])
    (hparse : ∀ r ∈ rows, (priceFloat r.price).isSome)
    (hclu : ∀ r ∈ rows, ∀ r' ∈ rows, r.propertyName = r'.propertyName →
      r.cluster = r'.cluster) :
    ∃ props c cu,
      (find_nearest_property hav ctx (some p) (some rows)).1 =
        FNResult.found props c ∧
      extract_unique_properties ((assignDistanceColumn hav p.1 p.2 rows).filter
        (fun r => r.cluster = c)) = some cu ∧
      props.length =
        min 7 (dedupFirst (rows.map (fun r => r.propertyName))).length ∧
      (∃ A B, props = A ++ B ∧
        (∀ u ∈ A, u.cluster = c) ∧ (∀ u ∈ B, u.cluster ≠ c) ∧
        A.Pairwise (fun u v => u.distance_km ≤ v.distance_km) ∧
        B.Pairwise (fun u v => u.distance_km ≤ v.distance_km)) ∧
      (7 ≤ cu.length → props = (sortLe distLe cu).take 7) := by
  have hne' : assignDistanceColumn hav p.1 p.2 rows ≠ [] := by
    unfold assignDistanceColumn
    simpa using hne
  obtain ⟨m, hm⟩ := firstMinBy_isSome rowDist _ hne'
  have hparse' : ∀ r ∈ assignDistanceColumn hav p.1 p.2 rows,
      (priceFloat r.price).isSome :=
    assignDistanceColumn_parse hav p.1 p.2 rows hparse
  have hclu' : ∀ r ∈ assignDistanceColumn hav p.1 p.2 rows,
      ∀ r' ∈ assignDistanceColumn hav p.1 p.2 rows,
      r.propertyName = r'.propertyName → r.cluster = r'.cluster := by
    intro r hr r' hr' hname
    obtain ⟨a, ha, rfl⟩ := List.mem_map.mp hr
    obtain ⟨a', ha', rfl⟩ := List.mem_map.mp hr'
    exact hclu a ha a' ha' hname
  obtain ⟨cu, hcu⟩ := extract_unique_isSome
    ((assignDistanceColumn hav p.1 p.2 rows).filter
      (fun r => r.cluster = m.cluster))
    (fun r hr => hparse' r (List.mem_of_mem_filter hr))
  obtain ⟨ou, hou⟩ := extract_unique_isSome
    ((assignDistanceColumn hav p.1 p.2 rows).filter
      (fun r => ¬ r.cluster = m.cluster))
    (fun r hr => hparse' r (List.mem_of_mem_filter hr))
  have h_pq : ∀ r ∈ assignDistanceColumn hav p.1 p.2 rows,
      decide (r.cluster = m.cluster) =
        clusterOfName (assignDistanceColumn hav p.1 p.2 rows) m.cluster
          r.propertyName := by
    intro r hr
    unfold clusterOfName
    cases hfind : (assignDistanceColumn hav p.1 p.2 rows).find?
        (fun r' => r'.propertyName = r.propertyName) with
    | none =>
      have h0 := List.find?_eq_none.mp hfind r hr
      simp at h0
    | some r0 =>
      have h1 : r0.propertyName = r.propertyName := by
        simpa using List.find?_some hfind
      have h2 : r0 ∈ assignDistanceColumn hav p.1 p.2 rows :=
        List.mem_of_find?_eq_some hfind
      dsimp only
      rw [hclu' r0 h2 r hr h1]
  have h_pq' : ∀ r ∈ assignDistanceColumn hav p.1 p.2 rows,
      decide (¬ r.cluster = m.cluster) =
        !(clusterOfName (assignDistanceColumn hav p.1 p.2 rows) m.cluster
          r.propertyName) := by
    intro r hr
    rw [decide_not, h_pq r hr]
  have hsplit : (dedupFirst (((assignDistanceColumn hav p.1 p.2 rows).filter
        (fun r => r.cluster = m.cluster)).map (fun r => r.propertyName))).length +
      (dedupFirst (((assignDistanceColumn hav p.1 p.2 rows).filter
        (fun r => ¬ r.cluster = m.cluster)).map (fun r => r.propertyName))).length =
      (dedupFirst (rows.map (fun r => r.propertyName))).length := by
    rw [filter_map_name _ _ _ h_pq,
      filter_map_name _ _ (fun n => !(clusterOfName
        (assignDistanceColumn hav p.1 p.2 rows) m.cluster n)) h_pq',
      dedupFirst_filter, dedupFirst_filter, assign_names]
    exact length_filter_partition _ _
  have hlenC := omap_length _ _ _ hcu
  have hlenO := omap_length _ _ _ hou
  have htotd : ∀ a b : UniqueProp, distLe a b = true ∨ distLe b a = true := by
    intro a b
    unfold distLe
    rcases le_total a.distance_km b.distance_km with h | h
    · exact Or.inl (by simpa using h)
    · exact Or.inr (by simpa using h)
  have htransd : ∀ a b c : UniqueProp, distLe a b = true → distLe b c = true →
      distLe a c = true := by
    intro a b c h1 h2
    unfold distLe at h1 h2 ⊢
    simp only [decide_eq_true_eq] at h1 h2 ⊢
    exact le_trans h1 h2
  have hsortedC : (sortLe distLe cu).Pairwise
      (fun u v => u.distance_km ≤ v.distance_km) :=
    (sortLe_pairwise distLe htotd htransd cu).imp
      (fun h => by simpa [distLe] using h)
  have hsortedO : (sortLe distLe ou).Pairwise
      (fun u v => u.distance_km ≤ v.distance_km) :=
    (sortLe_pairwise distLe htotd htransd ou).imp
      (fun h => by simpa [distLe] using h)
  have hcluC : ∀ u ∈ sortLe distLe cu, u.cluster = m.cluster :=
    fun u hu => extract_cluster_eq _ _ _ hcu u ((mem_sortLe _ _ _).mp hu)
  have hcluO : ∀ u ∈ sortLe distLe ou, u.cluster ≠ m.cluster :=
    fun u hu => extract_cluster_ne _ _ _ hou u ((mem_sortLe _ _ _).mp hu)
  by_cases hlt : (sortLe distLe cu).length < 7
  · have hfst : (find_nearest_property hav ctx (some p) (some rows)).1 =
        FNResult.found (sortLe distLe cu ++
          (sortLe distLe ou).take (7 - (sortLe distLe cu).length))
          m.cluster := by
      unfold find_nearest_property
      rw [hpre]
      dsimp only
      rw [if_neg (by simp [isEmpty_false_of_ne_nil rows hne]), hm]
      dsimp only
      rw [hcu]
      dsimp only
      rw [if_pos hlt, hou]
    refine ⟨_, m.cluster, cu, hfst, hcu, ?_, ?_, ?_⟩
    · rw [List.length_append, List.length_take, length_sortLe, length_sortLe]
      rw [length_sortLe] at hlt
      rw [hlenC] at hlt ⊢
      rw [hlenO]
      simp only [Nat.min_def]
      split_ifs <;> omega
    · refine ⟨sortLe distLe cu,
        (sortLe distLe ou).take (7 - (sortLe distLe cu).length), rfl,
        hcluC, ?_, hsortedC, ?_⟩
      · intro u hu
        exact hcluO u (List.mem_of_mem_take hu)
      · exact List.Pairwise.sublist (List.take_sublist _ _) hsortedO
    · intro h7
      rw [length_sortLe] at hlt
      omega
  · have hfst : (find_nearest_property hav ctx (some p) (some rows)).1 =
        FNResult.found ((sortLe distLe cu).take 7) m.cluster := by
      unfold find_nearest_property
      rw [hpre]
      dsimp only
      rw [if_neg (by simp [isEmpty_false_of_ne_nil rows hne]), hm]
      dsimp only
      rw [hcu]
      dsimp only
      rw [if_neg hlt]
    refine ⟨_, m.cluster, cu, hfst, hcu, ?_, ?_, fun _ => rfl⟩
    · rw [List.length_take, length_sortLe]
      rw [length_sortLe] at hlt
      rw [hlenC] at hlt ⊢
      simp only [Nat.min_def]
      split_ifs <;> omega
    · refine ⟨(sortLe distLe cu).take 7, [], (List.append_nil _).symm,
        ?_, ?_, ?_, List.Pairwise.nil⟩
      · intro u hu
        exact hcluC u (List.mem_of_mem_take hu)
      · intro u hu
        cases hu
      · exact List.Pairwise.sublist (List.take_sublist _ _) hsortedC

/-- Witness for C2 on a three-row catalog with two clusters. -/
theorem nearest_cluster_result_witness :
    ∃ props c cu,
      (find_nearest_property (fun _ _ lat _ => lat)
        ⟨some "working", some "now", some "private", none⟩ (some (0, 0))
        (some [⟨"A", "OMR", "OMR", .raw "6,000", 1, 10, none⟩,
               ⟨"B", "OMR", "OMR", .raw "7,000", 2, 11, none⟩,
               ⟨"C", "ECR", "ECR", .raw "9,000", 3, 12, none⟩])).1 =
        FNResult.found props c ∧
      extract_unique_properties ((assignDistanceColumn (fun _ _ lat _ => lat)
        0 0 [⟨"A", "OMR", "OMR", .raw "6,000", 1, 10, none⟩,
             ⟨"B", "OMR", "OMR", .raw "7,000", 2, 11, none⟩,
             ⟨"C", "ECR", "ECR", .raw "9,000", 3, 12, none⟩]).filter
        (fun r => r.cluster = c)) = some cu ∧
      props.length = min 7 (dedupFirst
        ([⟨"A", "OMR", "OMR", .raw "6,000", 1, 10, none⟩,
          ⟨"B", "OMR", "OMR", .raw "7,000", 2, 11, none⟩,
          ⟨"C", "ECR", "ECR", .raw "9,000", 3, 12, none⟩].map
          (fun r => SheetRow.propertyName r))).length ∧
      (∃ A B, props = A ++ B ∧
        (∀ u ∈ A, u.cluster = c) ∧ (∀ u ∈ B, u.cluster ≠ c) ∧
        A.Pairwise (fun u v => u.distance_km ≤ v.distance_km) ∧
        B.Pairwise (fun u v => u.distance_km ≤ v.distance_km)) ∧
      (7 ≤ cu.length → props = (sortLe distLe cu).take 7) :=
  nearest_cluster_result (fun _ _ lat _ => lat)
    ⟨some "working", some "now", some "private", none⟩ (0, 0)
    [⟨"A", "OMR", "OMR", .raw "6,000", 1, 10, none⟩,
     ⟨"B", "OMR", "OMR", .raw "7,000", 2, 11, none⟩,
     ⟨"C", "ECR", "ECR", .raw "9,000", 3, 12, none⟩]
    (by decide) (by decide) (by decide) (by decide)

theorem lagrange3 (p1 p2 p3 q1 q2 q3 : ℝ) :
    (p1*q1 + p2*q2 + p3*q3)^2 ≤ (p1^2+p2^2+p3^2) * (q1^2+q2^2+q3^2) := by
  nlinarith [sq_nonneg (p1*q2 - p2*q1), sq_nonneg (p1*q3 - p3*q1),
    sq_nonneg (p2*q3 - p3*q2)]

theorem dot3_comm (u v : Vec3) : dot3 u v = dot3 v u := by
  unfold dot3
  ring

theorem sph_unit (phi lam : ℝ) : dot3 (sph phi lam) (sph phi lam) = 1 := by
  simp only [dot3, sph]
  linear_combination (Real.cos phi ^ 2) * Real.sin_sq_add_cos_sq lam +
    Real.sin_sq_add_cos_sq phi

theorem dot3_sq_le (p q : Vec3) : (dot3 p q)^2 ≤ dot3 p p * dot3 q q := by
  obtain ⟨p1, p2, p3⟩ := p
  obtain ⟨q1, q2, q3⟩ := q
  simp only [dot3]
  have h := lagrange3 p1 p2 p3 q1 q2 q3
  nlinarith [h]

theorem dot3_le_one (u v : Vec3) (hu : dot3 u u = 1) (hv : dot3 v v = 1) :
    -1 ≤ dot3 u v ∧ dot3 u v ≤ 1 := by
  have h := dot3_sq_le u v
  rw [hu, hv] at h
  constructor
  · nlinarith [sq_nonneg (dot3 u v + 1)]
  · nlinarith [sq_nonneg (dot3 u v - 1)]

theorem dot3_perp_perp (u v w : Vec3) (hv : dot3 v v = 1) :
    dot3 (perp u v (dot3 u v)) (perp w v (dot3 v w)) =
      dot3 u w - dot3 u v * dot3 v w := by
  obtain ⟨ux, uy, uz⟩ := u
  obtain ⟨vx, vy, vz⟩ := v
  obtain ⟨wx, wy, wz⟩ := w
  simp only [dot3, perp] at hv ⊢
  linear_combination ((ux*vx + uy*vy + uz*vz) * (vx*wx + vy*wy + vz*wz)) * hv

theorem dot3_perp_self (u v : Vec3) (hu : dot3 u u = 1) (hv : dot3 v v = 1) :
    dot3 (perp u v (dot3 u v)) (perp u v (dot3 u v)) = 1 - dot3 u v ^ 2 := by
  obtain ⟨ux, uy, uz⟩ := u
  obtain ⟨vx, vy, vz⟩ := v
  simp only [dot3, perp] at hu hv ⊢
  linear_combination hu + ((ux*vx + uy*vy + uz*vz)^2) * hv

theorem dot3_perp_self' (w v : Vec3) (hw : dot3 w w = 1) (hv : dot3 v v = 1) :
    dot3 (perp w v (dot3 v w)) (perp w v (dot3 v w)) = 1 - dot3 v w ^ 2 := by
  obtain ⟨wx, wy, wz⟩ := w
  obtain ⟨vx, vy, vz⟩ := v
  simp only [dot3, perp] at hw hv ⊢
  linear_combination hw + ((vx*wx + vy*wy + vz*wz)^2) * hv

theorem dot3_key (u v w : Vec3) (hu : dot3 u u = 1) (hv : dot3 v v = 1)
    (hw : dot3 w w = 1) :
    dot3 u v * dot3 v w -
      Real.sqrt (1 - dot3 u v ^ 2) * Real.sqrt (1 - dot3 v w ^ 2) ≤
      dot3 u w := by
  have hc1 : dot3 u v ^ 2 ≤ 1 := by
    have h := dot3_sq_le u v
    rw [hu, hv] at h
    simpa using h
  have hc2 : dot3 v w ^ 2 ≤ 1 := by
    have h := dot3_sq_le v w
    rw [hv, hw] at h
    simpa using h
  have hX : (dot3 u w - dot3 u v * dot3 v w)^2 ≤
      (1 - dot3 u v ^ 2) * (1 - dot3 v w ^ 2) := by
    have h := dot3_sq_le (perp u v (dot3 u v)) (perp w v (dot3 v w))
    rw [dot3_perp_perp u v w hv, dot3_perp_self u v hu hv,
      dot3_perp_self' w v hw hv] at h
    exact h
  have hs1 : Real.sqrt (1 - dot3 u v ^ 2) ^ 2 = 1 - dot3 u v ^ 2 :=
    Real.sq_sqrt (by linarith)
  have hs2 : Real.sqrt (1 - dot3 v w ^ 2) ^ 2 = 1 - dot3 v w ^ 2 :=
    Real.sq_sqrt (by linarith)
  have hY0 : 0 ≤ Real.sqrt (1 - dot3 u v ^ 2) * Real.sqrt (1 - dot3 v w ^ 2) :=
    mul_nonneg (Real.sqrt_nonneg _) (Real.sqrt_nonneg _)
  have hX2 : (dot3 u w - dot3 u v * dot3 v w)^2 ≤
      (Real.sqrt (1 - dot3 u v ^ 2) * Real.sqrt (1 - dot3 v w ^ 2))^2 := by
    rw [mul_pow, hs1, hs2]
    exact hX
  have habs := abs_le_of_sq_le_sq' hX2 hY0
  linarith [habs.1]

theorem arccos_le_arccos_of_le (x y : ℝ) (h : x ≤ y) :
    Real.arccos y ≤ Real.arccos x := by
  rw [Real.arccos_eq_pi_div_two_sub_arcsin, Real.arccos_eq_pi_div_two_sub_arcsin]
  have := Real.monotone_arcsin h
  linarith

theorem arccos_dot_triangle (u v w : Vec3) (hu : dot3 u u = 1)
    (hv : dot3 v v = 1) (hw : dot3 w w = 1) :
    Real.arccos (dot3 u w) ≤
      Real.arccos (dot3 u v) + Real.arccos (dot3 v w) := by
  have r1 := dot3_le_one u v hu hv
  have r2 := dot3_le_one v w hv hw
  by_cases hcase : Real.arccos (dot3 u v) + Real.arccos (dot3 v w) ≤ Real.pi
  · have hsum0 : 0 ≤ Real.arccos (dot3 u v) + Real.arccos (dot3 v w) :=
      add_nonneg (Real.arccos_nonneg _) (Real.arccos_nonneg _)
    have hcos : Real.cos (Real.arccos (dot3 u v) + Real.arccos (dot3 v w)) ≤
        dot3 u w := by
      rw [Real.cos_add, Real.cos_arccos r1.1 r1.2, Real.cos_arccos r2.1 r2.2,
        Real.sin_arccos, Real.sin_arccos]
      exact dot3_key u v w hu hv hw
    calc Real.arccos (dot3 u w)
        ≤ Real.arccos (Real.cos (Real.arccos (dot3 u v) +
            Real.arccos (dot3 v w))) := arccos_le_arccos_of_le _ _ hcos
      _ = _ := Real.arccos_cos hsum0 hcase
  · push_neg at hcase
    linarith [Real.arccos_le_pi (dot3 u w)]

theorem two_atan2_sqrt (a : ℝ) (h0 : 0 ≤ a) (h1 : a ≤ 1) :
    2 * atan2 (Real.sqrt a) (Real.sqrt (1 - a)) = Real.arccos (1 - 2*a) := by
  rcases lt_or_eq_of_le h1 with hlt | heq
  · have hx : 0 < Real.sqrt (1 - a) := Real.sqrt_pos.mpr (by linarith)
    unfold atan2
    rw [if_pos hx]
    have hs0 : 0 ≤ Real.sqrt a / Real.sqrt (1 - a) :=
      div_nonneg (Real.sqrt_nonneg _) (le_of_lt hx)
    have ht0 : 0 ≤ Real.arctan (Real.sqrt a / Real.sqrt (1 - a)) := by
      have h := Real.arctan_strictMono.monotone hs0
      rwa [Real.arctan_zero] at h
    have ht2 := Real.arctan_lt_pi_div_two (Real.sqrt a / Real.sqrt (1 - a))
    have hs2 : (Real.sqrt a / Real.sqrt (1 - a))^2 = a / (1 - a) := by
      rw [div_pow, Real.sq_sqrt h0, Real.sq_sqrt (by linarith)]
    have hcos2 : Real.cos (2 * Real.arctan (Real.sqrt a / Real.sqrt (1 - a))) =
        1 - 2*a := by
      rw [Real.cos_two_mul, Real.cos_arctan, div_pow, one_pow,
        Real.sq_sqrt (by positivity), hs2]
      have hne : (1 : ℝ) - a ≠ 0 := by linarith
      field_simp
      ring
    rw [← hcos2, Real.arccos_cos (by linarith) (by linarith)]
  · subst heq
    rw [sub_self, Real.sqrt_zero, Real.sqrt_one]
    unfold atan2
    rw [if_neg (lt_irrefl (0:ℝ)), if_neg (lt_irrefl (0:ℝ)),
      if_pos (one_pos : (0:ℝ) < 1)]
    rw [show (1:ℝ) - 2*1 = -1 by norm_num, Real.arccos_neg_one]
    ring

theorem dot_sph (phi1 lam1 phi2 lam2 : ℝ) :
    dot3 (sph phi1 lam1) (sph phi2 lam2) =
      Real.cos phi1 * Real.cos phi2 * Real.cos (lam1 - lam2) +
        Real.sin phi1 * Real.sin phi2 := by
  simp only [dot3, sph, Real.cos_sub]
  ring

theorem sin_sq_half (x : ℝ) : Real.sin (x/2)^2 = (1 - Real.cos x)/2 := by
  have hc := Real.cos_two_mul (x/2)
  have hs := Real.sin_sq_add_cos_sq (x/2)
  have hx : 2 * (x/2) = x := by ring
  rw [hx] at hc
  linarith

theorem hav_a_eq (phi1 lam1 phi2 lam2 : ℝ) :
    1 - 2 * (Real.sin ((phi2 - phi1)/2)^2 +
      Real.cos phi1 * Real.cos phi2 * Real.sin ((lam2 - lam1)/2)^2) =
      dot3 (sph phi1 lam1) (sph phi2 lam2) := by
  rw [dot_sph, sin_sq_half, sin_sq_half]
  simp only [Real.cos_sub]
  ring

theorem haversine_core (phi1 lam1 phi2 lam2 : ℝ) :
    6371 * (2 * atan2
      (Real.sqrt (Real.sin ((phi2 - phi1)/2)^2 +
        Real.cos phi1 * Real.cos phi2 * Real.sin ((lam2 - lam1)/2)^2))
      (Real.sqrt (1 - (Real.sin ((phi2 - phi1)/2)^2 +
        Real.cos phi1 * Real.cos phi2 * Real.sin ((lam2 - lam1)/2)^2)))) =
    6371 * Real.arccos (dot3 (sph phi1 lam1) (sph phi2 lam2)) := by
  have hdot := hav_a_eq phi1 lam1 phi2 lam2
  have hrange := dot3_le_one _ _ (sph_unit phi1 lam1) (sph_unit phi2 lam2)
  have h0 : 0 ≤ Real.sin ((phi2 - phi1)/2)^2 +
      Real.cos phi1 * Real.cos phi2 * Real.sin ((lam2 - lam1)/2)^2 := by
    linarith [hdot, hrange.2]
  have h1 : Real.sin ((phi2 - phi1)/2)^2 +
      Real.cos phi1 * Real.cos phi2 * Real.sin ((lam2 - lam1)/2)^2 ≤ 1 := by
    linarith [hdot, hrange.1]
  rw [two_atan2_sqrt _ h0 h1, hdot]

theorem haversine_eq_arccos (lat1 lon1 lat2 lon2 : ℝ) :
    haversine_distance lat1 lon1 lat2 lon2 =
      6371 * Real.arccos
        (dot3 (sph (lat1 * Real.pi / 180) (lon1 * Real.pi / 180))
          (sph (lat2 * Real.pi / 180) (lon2 * Real.pi / 180))) := by
  unfold haversine_distance
  dsimp only
  have hphi : (lat2 - lat1) * Real.pi / 180 =
      lat2 * Real.pi / 180 - lat1 * Real.pi / 180 := by ring
  have hlam : (lon2 - lon1) * Real.pi / 180 =
      lon2 * Real.pi / 180 - lon1 * Real.pi / 180 := by ring
  rw [hphi, hlam]
  exact haversine_core (lat1 * Real.pi / 180) (lon1 * Real.pi / 180)
    (lat2 * Real.pi / 180) (lon2 * Real.pi / 180)

/-- C9: `haversine_distance` is literally the haversine formula with
`R = 6371` km and degree-to-radian conversion; consequently the distance
from any point to itself is zero, the function is symmetric in its two
points, and it satisfies the triangle inequality (exactly, over the real
numbers — the floating-point evaluation can deviate only within rounding
tolerance). -/
theorem haversine_properties :
    (∀ lat1 lon1 lat2 lon2 : ℝ,
      haversine_distance lat1 lon1 lat2 lon2 =
        6371 * (2 * atan2
          (Real.sqrt (Real.sin ((lat2 - lat1) * Real.pi / 180 / 2) ^ 2 +
            Real.cos (lat1 * Real.pi / 180) * Real.cos (lat2 * Real.pi / 180) *
            Real.sin ((lon2 - lon1) * Real.pi / 180 / 2) ^ 2))
          (Real.sqrt (1 - (Real.sin ((lat2 - lat1) * Real.pi / 180 / 2) ^ 2 +
            Real.cos (lat1 * Real.pi / 180) * Real.cos (lat2 * Real.pi / 180) *
            Real.sin ((lon2 - lon1) * Real.pi / 180 / 2) ^ 2))))) ∧
    (∀ lat lon : ℝ, haversine_distance lat lon lat lon = 0) ∧
    (∀ lat1 lon1 lat2 lon2 : ℝ,
      haversine_distance lat1 lon1 lat2 lon2 =
        haversine_distance lat2 lon2 lat1 lon1) ∧
    (∀ lat1 lon1 lat2 lon2 lat3 lon3 : ℝ,
      haversine_distance lat1 lon1 lat3 lon3 ≤
        haversine_distance lat1 lon1 lat2 lon2 +
          haversine_distance lat2 lon2 lat3 lon3) := by
  refine ⟨?_, ?_, ?_, ?_⟩
  · intro lat1 lon1 lat2 lon2
    rfl
  · intro lat lon
    rw [haversine_eq_arccos, sph_unit, Real.arccos_one, mul_zero]
  · intro lat1 lon1 lat2 lon2
    rw [haversine_eq_arccos, haversine_eq_arccos, dot3_comm]
  · intro lat1 lon1 lat2 lon2 lat3 lon3
    rw [haversine_eq_arccos, haversine_eq_arccos, haversine_eq_arccos,
      ← mul_add]
    have h := arccos_dot_triangle
      (sph (lat1 * Real.pi / 180) (lon1 * Real.pi / 180))
      (sph (lat2 * Real.pi / 180) (lon2 * Real.pi / 180))
      (sph (lat3 * Real.pi / 180) (lon3 * Real.pi / 180))
      (sph_unit _ _) (sph_unit _ _) (sph_unit _ _)
    exact mul_le_mul_of_nonneg_left h (by norm_num)

end TrulivAgent
